import Mathlib

/-!
Verification of the event-calendar core of `src/main.py`: the date/time
parser and formatter (`parse_dt`, `dt_to_str`), the persisted-record loader
(`load_events`), the per-day index (`build_day_map`), and the multi-select
highlight assignment (`CalendarApp.apply_selected_events` together with
`pastel_from_index` and `_rebuild_highlight_day_map`).

Modelling conventions:
* Python `datetime` values are modelled by the `DateTime` structure below
  (year/month/day/hour/minute/second as `Nat`), compared lexicographically
  exactly as Python compares `datetime` values; `date` values by `DDate`.
* Python floats in `pastel_from_index` / `colorsys.hsv_to_rgb` are modelled
  by exact rational arithmetic carried out on scaled natural numbers.
* Python `set` iteration order is unspecified; wherever the source iterates
  over a set of ids, the model takes the iteration order as an explicit
  duplicate-free list argument.
* The unbounded `while True` colour-search loop in `apply_selected_events`
  is modelled by a bounded search (`find_color`) with a budget of 107
  tries.  Within the exact-arithmetic colour model that bound is a complete
  search: the candidate stream is the 7-element palette followed by the
  overflow generator, which in the model repeats with period 100, so every
  candidate the model can reach from a given index recurs within 107
  consecutive tries (`candColor_reachable`).  Under IEEE doubles the
  generator is not exactly periodic, so an exhausted budget is a fact of
  the exact model only and is not read as divergence of the source loop;
  the theorems below only use runs whose searches succeed within the
  budget, where the bounded and the unbounded search agree.
-/

namespace Todo

/-! ## Characters and digit strings -/

def isDigitCh (c : Char) : Bool :=
  48 ≤ c.toNat && c.toNat ≤ 57

def digitVal (c : Char) : Nat := c.toNat - 48

def digitCh (n : Nat) : Char := Char.ofNat (n + 48)

/-- Upper-case hexadecimal digit, as produced by Python's `%X` formatting. -/
def hexDigitCh (n : Nat) : Char :=
  if n < 10 then Char.ofNat (n + 48) else Char.ofNat (n - 10 + 65)

/-- Decimal digits of a natural number, most significant first
(the rendering used by Python's `%d` / `str`).  Structural recursion on an
iteration budget (`n + 1` always suffices) keeps the function
kernel-computable. -/
def decDigitsAux : Nat → Nat → List Char
  | 0, _ => []
  | fuel + 1, n =>
    if n < 10 then [digitCh n] else decDigitsAux fuel (n / 10) ++ [digitCh (n % 10)]

def decDigits (n : Nat) : List Char := decDigitsAux (n + 1) n

/-- Python `"%02d" % n`: decimal, zero-padded on the left to width two. -/
def pad2 (n : Nat) : List Char :=
  if n < 10 then '0' :: [digitCh n] else decDigits n

/-- Python `"%02X" % n`: upper-case hexadecimal, zero-padded to width two
(every channel value passed in the source is ≤ 255, giving exactly two digits). -/
def hex2 (n : Nat) : List Char :=
  [hexDigitCh (n / 16 % 16), hexDigitCh (n % 16)]

/-- ASCII whitespace, standing in for the whitespace classes used by Python's
`str.strip` and by the `\s+` separator in `strptime` patterns. -/
def isSpaceCh (c : Char) : Bool :=
  c = ' ' || c = '\t' || c = '\n' || c = '\x0b' || c = '\x0c' || c = '\r'

/-- Python `str.strip()` on the character list of a string. -/
def stripChars (cs : List Char) : List Char :=
  ((cs.dropWhile isSpaceCh).reverse.dropWhile isSpaceCh).reverse

/-! ## Calendar dates

`DDate` models a Python `datetime.date`; Python guarantees its fields form a
real calendar date, which the model records as the `ValidDate` predicate. -/

structure DDate where
  year : Nat
  month : Nat
  day : Nat
deriving DecidableEq, Repr

def isLeap (y : Nat) : Bool :=
  (y % 4 == 0 && y % 100 != 0) || y % 400 == 0

def daysInMonth (y m : Nat) : Nat :=
  if m = 2 then (if isLeap y then 29 else 28)
  else if m = 4 ∨ m = 6 ∨ m = 9 ∨ m = 11 then 30
  else 31

def ValidDate (d : DDate) : Prop :=
  1 ≤ d.year ∧ 1 ≤ d.month ∧ d.month ≤ 12 ∧ 1 ≤ d.day ∧ d.day ≤ daysInMonth d.year d.month

instance : DecidablePred ValidDate := fun d => by
  unfold ValidDate; infer_instance

/-- Lexicographic comparison, exactly how Python compares `date` values. -/
def dateLt (a b : DDate) : Prop :=
  a.year < b.year ∨ (a.year = b.year ∧ (a.month < b.month ∨ (a.month = b.month ∧ a.day < b.day)))

def dateLe (a b : DDate) : Prop := dateLt a b ∨ a = b

instance : DecidableRel dateLt := fun a b => by unfold dateLt; infer_instance

instance : DecidableRel dateLe := fun a b => by unfold dateLe; infer_instance

/-- Python's `cur += timedelta(days=1)` on a valid date. -/
def nextDay (d : DDate) : DDate :=
  if d.day < daysInMonth d.year d.month then ⟨d.year, d.month, d.day + 1⟩
  else if d.month < 12 then ⟨d.year, d.month + 1, 1⟩
  else ⟨d.year + 1, 1, 1⟩

/-- Days contributed by months `1 .. m-1` of year `y`. -/
def daysBeforeMonth (y : Nat) : Nat → Nat
  | 0 => 0
  | m + 1 => daysBeforeMonth y m + (if 1 ≤ m then daysInMonth y m else 0)

def daysInYear (y : Nat) : Nat := if isLeap y then 366 else 365

/-- Leap years among `1 .. y-1`. -/
def leapsBefore (y : Nat) : Nat := (y - 1) / 4 - (y - 1) / 100 + (y - 1) / 400

/-- Days contributed by years `1 .. y-1` (closed form, so that date ranks
evaluate without deep recursion). -/
def yearDaysBefore (y : Nat) : Nat := 365 * (y - 1) + leapsBefore y

/-- Rank of a date: an abstract day number increasing by one per calendar day. -/
def toOrd (d : DDate) : Nat :=
  yearDaysBefore d.year + daysBeforeMonth d.year d.month + d.day

lemma one_le_daysInMonth (y m : Nat) : 1 ≤ daysInMonth y m := by
  unfold daysInMonth
  split_ifs <;> omega

lemma daysBeforeMonth_succ (y m : Nat) (hm : 1 ≤ m) :
    daysBeforeMonth y (m + 1) = daysBeforeMonth y m + daysInMonth y m := by
  simp only [daysBeforeMonth]
  split_ifs <;> omega

lemma isLeap_iff (y : Nat) :
    isLeap y = true ↔ ((y % 4 = 0 ∧ ¬ y % 100 = 0) ∨ y % 400 = 0) := by
  unfold isLeap
  simp [Bool.or_eq_true, Bool.and_eq_true, beq_iff_eq, bne_iff_ne]

lemma yearDaysBefore_succ (y : Nat) (hy : 1 ≤ y) :
    yearDaysBefore (y + 1) = yearDaysBefore y + daysInYear y := by
  have hl := isLeap_iff y
  unfold yearDaysBefore leapsBefore daysInYear
  cases hly : isLeap y
  · rw [hly] at hl
    simp only [Bool.false_eq_true, false_iff, not_or, not_and, not_not] at hl
    simp only [Bool.false_eq_true, if_false]
    omega
  · rw [hly] at hl
    simp only [true_iff] at hl
    simp only [if_true]
    omega

lemma daysBeforeMonth_thirteen (y : Nat) :
    daysBeforeMonth y 13 = daysInYear y := by
  simp only [daysBeforeMonth, daysInMonth, daysInYear]
  cases h : isLeap y <;> simp [h]

lemma daysBeforeMonth_mono (y : Nat) {m₁ m₂ : Nat} (h : m₁ ≤ m₂) :
    daysBeforeMonth y m₁ ≤ daysBeforeMonth y m₂ := by
  induction m₂ with
  | zero =>
    have hm : m₁ = 0 := by omega
    subst hm; exact le_refl _
  | succ m ih =>
    rcases Nat.lt_or_ge m₁ (m + 1) with h' | h'
    · have := ih (by omega)
      simp only [daysBeforeMonth]
      split_ifs <;> omega
    · have : m₁ = m + 1 := by omega
      subst this; exact le_refl _

lemma yearDaysBefore_mono {y₁ y₂ : Nat} (h : y₁ ≤ y₂) :
    yearDaysBefore y₁ ≤ yearDaysBefore y₂ := by
  unfold yearDaysBefore leapsBefore
  omega

/-- The day-of-year offset of a valid date fits inside its year. -/
lemma ord_offset_le (d : DDate) (hv : ValidDate d) :
    daysBeforeMonth d.year d.month + d.day ≤ daysInYear d.year := by
  obtain ⟨_, hm1, hm12, _, hday⟩ := hv
  have h1 : daysBeforeMonth d.year d.month + d.day ≤ daysBeforeMonth d.year (d.month + 1) := by
    simp only [daysBeforeMonth]
    split_ifs <;> omega
  have h2 : daysBeforeMonth d.year (d.month + 1) ≤ daysBeforeMonth d.year 13 :=
    daysBeforeMonth_mono _ (by omega)
  rw [daysBeforeMonth_thirteen] at h2
  omega

lemma toOrd_lt_of_dateLt {a b : DDate} (ha : ValidDate a) (hb : ValidDate b)
    (h : dateLt a b) : toOrd a < toOrd b := by
  unfold toOrd
  rcases h with hy | ⟨hy, hm | ⟨hm, hd⟩⟩
  · -- strictly earlier year: a's offset fits in year a, b contributes ≥ 1
    have h1 : daysBeforeMonth a.year a.month + a.day ≤ daysInYear a.year := ord_offset_le a ha
    have h2 : yearDaysBefore (a.year + 1) = yearDaysBefore a.year + daysInYear a.year :=
      yearDaysBefore_succ _ ha.1
    have h3 : yearDaysBefore (a.year + 1) ≤ yearDaysBefore b.year :=
      yearDaysBefore_mono (by omega)
    have hd1 : 1 ≤ b.day := hb.2.2.2.1
    omega
  · -- same year, strictly earlier month
    rw [hy]
    have hstep : daysBeforeMonth b.year (a.month + 1)
        = daysBeforeMonth b.year a.month + daysInMonth b.year a.month := by
      exact daysBeforeMonth_succ _ _ ha.2.1
    have hday : a.day ≤ daysInMonth b.year a.month := by
      have := ha.2.2.2.2; rw [hy] at this; exact this
    have h2 : daysBeforeMonth b.year (a.month + 1) ≤ daysBeforeMonth b.year b.month :=
      daysBeforeMonth_mono _ (by omega)
    have hd1 : 1 ≤ b.day := hb.2.2.2.1
    omega
  · rw [hy, hm]; omega

lemma dateLt_trichotomy (a b : DDate) : dateLt a b ∨ a = b ∨ dateLt b a := by
  obtain ⟨ya, ma, da⟩ := a
  obtain ⟨yb, mb, db⟩ := b
  simp only [dateLt, DDate.mk.injEq]
  omega

lemma toOrd_lt_iff {a b : DDate} (ha : ValidDate a) (hb : ValidDate b) :
    toOrd a < toOrd b ↔ dateLt a b := by
  constructor
  · intro h
    rcases dateLt_trichotomy a b with h' | h' | h'
    · exact h'
    · subst h'; omega
    · have := toOrd_lt_of_dateLt hb ha h'; omega
  · exact toOrd_lt_of_dateLt ha hb

lemma nextDay_valid {d : DDate} (hv : ValidDate d) : ValidDate (nextDay d) := by
  obtain ⟨hy, hm1, hm12, hd1, hd2⟩ := hv
  unfold nextDay
  split_ifs with h1 h2
  · exact ⟨hy, hm1, hm12, show 1 ≤ d.day + 1 from by omega,
      show d.day + 1 ≤ daysInMonth d.year d.month from by omega⟩
  · exact ⟨hy, show 1 ≤ d.month + 1 from by omega, show d.month + 1 ≤ 12 from by omega,
      show 1 ≤ 1 from le_refl 1,
      show 1 ≤ daysInMonth d.year (d.month + 1) from one_le_daysInMonth _ _⟩
  · exact ⟨show 1 ≤ d.year + 1 from by omega, show 1 ≤ 1 from le_refl 1,
      show (1 : Nat) ≤ 12 from by omega, show 1 ≤ 1 from le_refl 1,
      show 1 ≤ daysInMonth (d.year + 1) 1 from one_le_daysInMonth _ _⟩

lemma toOrd_nextDay {d : DDate} (hv : ValidDate d) :
    toOrd (nextDay d) = toOrd d + 1 := by
  obtain ⟨hy, hm1, hm12, hd1, hd2⟩ := hv
  unfold nextDay toOrd
  split_ifs with h1 h2
  · simp; omega
  · -- last day of a non-December month
    have hstep : daysBeforeMonth d.year (d.month + 1)
        = daysBeforeMonth d.year d.month + daysInMonth d.year d.month :=
      daysBeforeMonth_succ _ _ hm1
    simp only
    omega
  · -- 31 December
    have hm : d.month = 12 := by omega
    have h31 : daysInMonth d.year 12 = 31 := by simp [daysInMonth]
    have hfull : daysBeforeMonth d.year 13 = daysInYear d.year := daysBeforeMonth_thirteen _
    have hstep : daysBeforeMonth d.year 13
        = daysBeforeMonth d.year 12 + daysInMonth d.year 12 :=
      daysBeforeMonth_succ _ _ (by omega)
    have hyb : yearDaysBefore (d.year + 1) = yearDaysBefore d.year + daysInYear d.year :=
      yearDaysBefore_succ _ hy
    have hdb1 : daysBeforeMonth (d.year + 1) 1 = 0 := by simp [daysBeforeMonth]
    simp only
    rw [hm] at h1 hd2 ⊢
    omega

lemma toOrd_le_iff {a b : DDate} (ha : ValidDate a) (hb : ValidDate b) :
    toOrd a ≤ toOrd b ↔ dateLe a b := by
  constructor
  · intro h
    rcases dateLt_trichotomy a b with h' | h' | h'
    · exact Or.inl h'
    · exact Or.inr h'
    · have := toOrd_lt_of_dateLt hb ha h'; omega
  · rintro (h | rfl)
    · exact le_of_lt (toOrd_lt_of_dateLt ha hb h)
    · exact le_refl _

lemma toOrd_inj {a b : DDate} (ha : ValidDate a) (hb : ValidDate b)
    (h : toOrd a = toOrd b) : a = b := by
  rcases dateLt_trichotomy a b with h' | h' | h'
  · have := toOrd_lt_of_dateLt ha hb h'; omega
  · exact h'
  · have := toOrd_lt_of_dateLt hb ha h'; omega

/-! ## The day-iteration loop

`while cur <= endd: ...; cur += timedelta(days=1)` from `build_day_map` and
`_rebuild_highlight_day_map`.  The loop always terminates on Python `date`
values; the model runs it on an iteration budget that is proved sufficient
for valid dates (`toOrd` advances by one per step). -/

def dayRangeAux : Nat → DDate → DDate → List DDate
  | 0, _, _ => []
  | fuel + 1, cur, e =>
    if dateLe cur e then cur :: dayRangeAux fuel (nextDay cur) e else []

def dayRange (s e : DDate) : List DDate :=
  dayRangeAux (toOrd e + 1 - toOrd s) s e

/-- Occurrence count with decidable equality (Python `list.count` / one
append per loop iteration). -/
def countOcc {α : Type} [DecidableEq α] (a : α) : List α → Nat
  | [] => 0
  | b :: l => countOcc a l + (if b = a then 1 else 0)

lemma countOcc_append {α : Type} [DecidableEq α] (a : α) (l₁ l₂ : List α) :
    countOcc a (l₁ ++ l₂) = countOcc a l₁ + countOcc a l₂ := by
  induction l₁ with
  | nil => simp [countOcc]
  | cons b l ih =>
    show countOcc a (b :: (l ++ l₂)) = countOcc a (b :: l) + countOcc a l₂
    simp only [countOcc, ih]
    omega

lemma countOcc_perm {α : Type} [DecidableEq α] (a : α) {l₁ l₂ : List α}
    (h : l₁.Perm l₂) : countOcc a l₁ = countOcc a l₂ := by
  induction h with
  | nil => rfl
  | cons x _ ih => simp only [countOcc, ih]
  | swap x y l => simp only [countOcc]; omega
  | trans _ _ ih₁ ih₂ => omega

lemma countOcc_pos_iff_mem {α : Type} [DecidableEq α] (a : α) (l : List α) :
    0 < countOcc a l ↔ a ∈ l := by
  induction l with
  | nil => simp [countOcc]
  | cons b l ih =>
    simp only [countOcc, List.mem_cons]
    rcases eq_or_ne b a with rfl | hne
    · simp
    · simp [hne, Ne.symm hne, ih]

lemma countOcc_replicate {α : Type} [DecidableEq α] (a b : α) (n : Nat) :
    countOcc a (List.replicate n b) = if b = a then n else 0 := by
  induction n with
  | zero => simp [countOcc]
  | succ n ih => simp only [List.replicate_succ, countOcc, ih]; split_ifs <;> omega

lemma countOcc_dayRangeAux (e d : DDate) (he : ValidDate e) (hd : ValidDate d) :
    ∀ (fuel : Nat) (cur : DDate), ValidDate cur → toOrd e + 1 - toOrd cur ≤ fuel →
    countOcc d (dayRangeAux fuel cur e) = if dateLe cur d ∧ dateLe d e then 1 else 0 := by
  intro fuel
  induction fuel with
  | zero =>
    intro cur hc hfuel
    have hno : ¬ (dateLe cur d ∧ dateLe d e) := by
      rintro ⟨h1, h2⟩
      have g1 := (toOrd_le_iff hc hd).2 h1
      have g2 := (toOrd_le_iff hd he).2 h2
      omega
    simp only [dayRangeAux, countOcc]
    rw [if_neg hno]
  | succ fuel ih =>
    intro cur hc hfuel
    by_cases hle : dateLe cur e
    · have hnv := nextDay_valid hc
      have hord := toOrd_nextDay hc
      have hce : toOrd cur ≤ toOrd e := (toOrd_le_iff hc he).2 hle
      rw [dayRangeAux, if_pos hle, countOcc]
      rw [ih (nextDay cur) hnv (by omega)]
      have e1 : dateLe (nextDay cur) d ↔ toOrd cur + 1 ≤ toOrd d := by
        rw [← (toOrd_le_iff hnv hd), hord]
      have e2 : dateLe cur d ↔ toOrd cur ≤ toOrd d := (toOrd_le_iff hc hd).symm
      have e3 : dateLe d e ↔ toOrd d ≤ toOrd e := (toOrd_le_iff hd he).symm
      by_cases hdc : cur = d
      · subst hdc
        have hA : ¬ (dateLe (nextDay cur) cur ∧ dateLe cur e) := by
          rintro ⟨h1, _⟩
          rw [e1] at h1
          omega
        rw [if_neg hA, if_pos rfl, if_pos ⟨Or.inr rfl, hle⟩]
      · have hne : toOrd cur ≠ toOrd d := fun h => hdc (toOrd_inj hc hd h)
        rw [if_neg hdc]
        have hiff : (dateLe (nextDay cur) d ∧ dateLe d e) ↔ (dateLe cur d ∧ dateLe d e) := by
          rw [e1, e2, e3]; omega
        rw [if_congr hiff rfl rfl]
        omega
    · have hno : ¬ (dateLe cur d ∧ dateLe d e) := by
        rintro ⟨h1, h2⟩
        have g1 := (toOrd_le_iff hc hd).2 h1
        have g2 := (toOrd_le_iff hd he).2 h2
        exact hle ((toOrd_le_iff hc he).1 (by omega))
      rw [dayRangeAux, if_neg hle, countOcc, if_neg hno]

lemma countOcc_dayRange {s e : DDate} (hs : ValidDate s) (he : ValidDate e)
    {d : DDate} (hd : ValidDate d) :
    countOcc d (dayRange s e) = if dateLe s d ∧ dateLe d e then 1 else 0 :=
  countOcc_dayRangeAux e d he hd _ s hs (le_refl _)

/-! ## Date-times and events -/

/-- A Python `datetime` value (time-of-day to second precision; the source
never constructs sub-second precision). -/
structure DateTime where
  year : Nat
  month : Nat
  day : Nat
  hour : Nat
  minute : Nat
  second : Nat
deriving DecidableEq, Repr

/-- The date part, Python's `datetime.date()`. -/
def dtDate (t : DateTime) : DDate := ⟨t.year, t.month, t.day⟩

/-- Lexicographic comparison of `datetime` values, as Python compares them. -/
def dtLt (a b : DateTime) : Prop :=
  a.year < b.year ∨ (a.year = b.year ∧
    (a.month < b.month ∨ (a.month = b.month ∧
      (a.day < b.day ∨ (a.day = b.day ∧
        (a.hour < b.hour ∨ (a.hour = b.hour ∧
          (a.minute < b.minute ∨ (a.minute = b.minute ∧
            a.second < b.second)))))))))

instance : DecidableRel dtLt := fun a b => by unfold dtLt; infer_instance

/-- The `Event` dataclass.  The Python field `end` is called `stop` here
because `end` is a Lean keyword; everything else keeps its source name. -/
structure Event where
  id : String
  name : String
  start : DateTime
  stop : DateTime
  note : String
deriving DecidableEq, Repr

/-- `Event.overlaps_day`: `self.start.date() <= d <= self.end.date()`. -/
def overlaps_day (e : Event) (d : DDate) : Bool :=
  decide (dateLe (dtDate e.start) d ∧ dateLe d (dtDate e.stop))

/-- Python string comparison: lexicographic on code points. -/
def listLeB : List Char → List Char → Bool
  | [], _ => true
  | _ :: _, [] => false
  | a :: as, b :: bs =>
    if a.toNat < b.toNat then true
    else if b.toNat < a.toNat then false
    else listLeB as bs

def strLeB (a b : String) : Bool := listLeB a.data b.data

/-- The canonical ordering `(start, end, name)` used by every `sort` call in
the source (lexicographic ≤ on the Python sort key). -/
def canonLe (a b : Event) : Prop :=
  dtLt a.start b.start ∨ (a.start = b.start ∧
    (dtLt a.stop b.stop ∨ (a.stop = b.stop ∧ strLeB a.name b.name = true)))

instance : DecidableRel canonLe := fun a b => by unfold canonLe; infer_instance

/-! ## `build_day_map`

The Python dict `day_map` is modelled as an insertion-ordered association
list; `setdefault(cur, []).append(e)` appends to the bucket of an existing
key and adds a fresh key at the end otherwise. -/

def dictAppend (m : List (DDate × List Event)) (d : DDate) (e : Event) :
    List (DDate × List Event) :=
  match m with
  | [] => [(d, [e])]
  | (k, v) :: rest => if k = d then (k, v ++ [e]) :: rest else (k, v) :: dictAppend rest d e

/-- Python `day_map.get(d, [])`. -/
def dictGet (m : List (DDate × List Event)) (d : DDate) : List Event :=
  match m with
  | [] => []
  | (k, v) :: rest => if k = d then v else dictGet rest d

/-- The inner `while cur <= endd` loop of `build_day_map` for one event. -/
def addEventDays (m : List (DDate × List Event)) (e : Event) :
    List (DDate × List Event) :=
  (dayRange (dtDate e.start) (dtDate e.stop)).foldl (fun m' d => dictAppend m' d e) m

/-- `build_day_map`: bucket every event into each day of its span, then sort
every bucket by the canonical `(start, end, name)` key.  Python's `list.sort`
is stable, as is `List.insertionSort`, so the two agree on ties as well. -/
def build_day_map (events : List Event) : List (DDate × List Event) :=
  (events.foldl addEventDays []).map (fun kv => (kv.1, List.insertionSort canonLe kv.2))

/-- The per-day bucket delivered to consumers (`day_map.get(d, [])`). -/
def dayBucket (events : List Event) (d : DDate) : List Event :=
  dictGet (build_day_map events) d

lemma dictGet_dictAppend (m : List (DDate × List Event)) (d d' : DDate) (e : Event) :
    dictGet (dictAppend m d e) d' =
      if d = d' then dictGet m d' ++ [e] else dictGet m d' := by
  induction m with
  | nil =>
    by_cases h : d = d'
    · subst h; simp [dictAppend, dictGet]
    · simp [dictAppend, dictGet, h]
  | cons kv rest ih =>
    obtain ⟨k, v⟩ := kv
    by_cases hk : k = d
    · subst hk
      by_cases hdd : k = d'
      · subst hdd
        simp [dictAppend, dictGet]
      · simp [dictAppend, dictGet, hdd]
    · by_cases hkd : k = d'
      · subst hkd
        have hdd : ¬ (d = k) := fun h => hk h.symm
        simp [dictAppend, dictGet, hk, hdd]
      · simp [dictAppend, dictGet, hk, hkd, ih]

lemma dictGet_foldl_days (days : List DDate) (e : Event) :
    ∀ (m : List (DDate × List Event)) (d : DDate),
    dictGet (days.foldl (fun m' d' => dictAppend m' d' e) m) d =
      dictGet m d ++ List.replicate (countOcc d days) e := by
  induction days with
  | nil => intro m d; simp [countOcc]
  | cons day rest ih =>
    intro m d
    simp only [List.foldl_cons, countOcc]
    rw [ih, dictGet_dictAppend]
    split_ifs with h1
    · subst h1
      simp [List.replicate_succ, List.append_assoc]
    · rfl

/-- How often day `d` is hit by event `e` during the day loop. -/
def hitCount (e : Event) (d : DDate) : Nat :=
  countOcc d (dayRange (dtDate e.start) (dtDate e.stop))

lemma dictGet_build_pre (events : List Event) (d : DDate) :
    ∀ m, dictGet (events.foldl addEventDays m) d =
      dictGet m d ++ (events.map (fun e => List.replicate (hitCount e d) e)).flatten := by
  induction events with
  | nil => intro m; simp
  | cons e rest ih =>
    intro m
    simp only [List.foldl_cons, List.map_cons, List.flatten_cons]
    rw [ih, addEventDays, dictGet_foldl_days, List.append_assoc]
    rfl

lemma hitCount_eq_overlap (e : Event) (d : DDate)
    (hs : ValidDate (dtDate e.start)) (he : ValidDate (dtDate e.stop))
    (hd : ValidDate d) :
    hitCount e d = if overlaps_day e d then 1 else 0 := by
  unfold hitCount overlaps_day
  rw [countOcc_dayRange hs he hd]
  split_ifs with h1 h2 h2 <;> simp_all

lemma dictGet_sorted_map (m : List (DDate × List Event)) (d : DDate) :
    dictGet (m.map (fun kv => (kv.1, List.insertionSort canonLe kv.2))) d =
      List.insertionSort canonLe (dictGet m d) := by
  induction m with
  | nil => simp [dictGet]
  | cons kv rest ih =>
    obtain ⟨k, v⟩ := kv
    simp only [List.map_cons, dictGet]
    split_ifs with h <;> simp_all

/-- The pre-sort bucket of a day is the input order filtered to coverage. -/
lemma join_replicate_filter (events : List Event) (d : DDate)
    (hval : ∀ e ∈ events, ValidDate (dtDate e.start) ∧ ValidDate (dtDate e.stop))
    (hd : ValidDate d) :
    (events.map (fun e => List.replicate (hitCount e d) e)).flatten =
      events.filter (fun e => overlaps_day e d) := by
  induction events with
  | nil => simp
  | cons e rest ih =>
    have hv := hval e (List.mem_cons_self e rest)
    have hrest : ∀ e' ∈ rest, ValidDate (dtDate e'.start) ∧ ValidDate (dtDate e'.stop) :=
      fun e' h => hval e' (List.mem_cons_of_mem _ h)
    simp only [List.map_cons, List.flatten_cons, List.filter_cons]
    rw [hitCount_eq_overlap e d hv.1 hv.2 hd, ih hrest]
    split_ifs with h <;> simp [h]

/-- Every day's bucket is exactly the input events covering that day, sorted
by the canonical key (stably, hence uniquely determined). -/
lemma dayBucket_eq (events : List Event) (d : DDate)
    (hval : ∀ e ∈ events, ValidDate (dtDate e.start) ∧ ValidDate (dtDate e.stop))
    (hd : ValidDate d) :
    dayBucket events d =
      List.insertionSort canonLe (events.filter (fun e => overlaps_day e d)) := by
  unfold dayBucket build_day_map
  rw [dictGet_sorted_map, dictGet_build_pre events d [],
    join_replicate_filter events d hval hd]
  rfl

/-! ## `parse_dt` and `dt_to_str`

`parse_dt` tries the formats of `DT_FORMATS` in order: `%Y-%m-%d`,
`%Y-%m-%d %H:%M`, `%Y-%m-%d %H:%M:%S`.  Each format is modelled after the
regular expressions CPython's `_strptime` compiles for the directives
(`%Y` = exactly four digits, `%m` = `1[0-2]|0[1-9]|[1-9]`,
`%d` = `3[01]|[12]\d|0[1-9]|[1-9]`, `%H` = `2[0-3]|[0-1]\d|\d`,
`%M` = `[0-5]\d|\d`, `%S` = `6[0-1]|[0-5]\d|\d`, a literal blank = `\s+`),
followed by the `datetime` constructor's range checks; a failed format
raises `ValueError`, which `parse_dt` catches before trying the next one.
`dt_to_str` mirrors `strftime`: `%m`/`%d`/`%H`/`%M` zero-pad to two digits,
`%Y` prints the year's decimal digits. -/

def read4Digits : List Char → Option (Nat × List Char)
  | c1 :: c2 :: c3 :: c4 :: rest =>
    if ('0' ≤ c1 ∧ c1 ≤ '9') ∧ ('0' ≤ c2 ∧ c2 ≤ '9') ∧ ('0' ≤ c3 ∧ c3 ≤ '9') ∧
        ('0' ≤ c4 ∧ c4 ≤ '9') then
      some (((digitVal c1 * 10 + digitVal c2) * 10 + digitVal c3) * 10 + digitVal c4, rest)
    else none
  | _ => none

def readMonth : List Char → Option (Nat × List Char)
  | c1 :: c2 :: rest =>
    if (c1 = '1' ∧ '0' ≤ c2 ∧ c2 ≤ '2') ∨ (c1 = '0' ∧ '1' ≤ c2 ∧ c2 ≤ '9') then
      some (digitVal c1 * 10 + digitVal c2, rest)
    else if '1' ≤ c1 ∧ c1 ≤ '9' then some (digitVal c1, c2 :: rest)
    else none
  | [c1] => if '1' ≤ c1 ∧ c1 ≤ '9' then some (digitVal c1, []) else none
  | [] => none

def readDay : List Char → Option (Nat × List Char)
  | c1 :: c2 :: rest =>
    if (c1 = '3' ∧ '0' ≤ c2 ∧ c2 ≤ '1') ∨ ((c1 = '1' ∨ c1 = '2') ∧ '0' ≤ c2 ∧ c2 ≤ '9') ∨
        (c1 = '0' ∧ '1' ≤ c2 ∧ c2 ≤ '9') then
      some (digitVal c1 * 10 + digitVal c2, rest)
    else if '1' ≤ c1 ∧ c1 ≤ '9' then some (digitVal c1, c2 :: rest)
    else none
  | [c1] => if '1' ≤ c1 ∧ c1 ≤ '9' then some (digitVal c1, []) else none
  | [] => none

def readHour : List Char → Option (Nat × List Char)
  | c1 :: c2 :: rest =>
    if (c1 = '2' ∧ '0' ≤ c2 ∧ c2 ≤ '3') ∨ ((c1 = '0' ∨ c1 = '1') ∧ '0' ≤ c2 ∧ c2 ≤ '9') then
      some (digitVal c1 * 10 + digitVal c2, rest)
    else if '0' ≤ c1 ∧ c1 ≤ '9' then some (digitVal c1, c2 :: rest)
    else none
  | [c1] => if '0' ≤ c1 ∧ c1 ≤ '9' then some (digitVal c1, []) else none
  | [] => none

def readMinute : List Char → Option (Nat × List Char)
  | c1 :: c2 :: rest =>
    if ('0' ≤ c1 ∧ c1 ≤ '5') ∧ ('0' ≤ c2 ∧ c2 ≤ '9') then
      some (digitVal c1 * 10 + digitVal c2, rest)
    else if '0' ≤ c1 ∧ c1 ≤ '9' then some (digitVal c1, c2 :: rest)
    else none
  | [c1] => if '0' ≤ c1 ∧ c1 ≤ '9' then some (digitVal c1, []) else none
  | [] => none

def readSecond : List Char → Option (Nat × List Char)
  | c1 :: c2 :: rest =>
    if (c1 = '6' ∧ '0' ≤ c2 ∧ c2 ≤ '1') ∨ (('0' ≤ c1 ∧ c1 ≤ '5') ∧ ('0' ≤ c2 ∧ c2 ≤ '9')) then
      some (digitVal c1 * 10 + digitVal c2, rest)
    else if '0' ≤ c1 ∧ c1 ≤ '9' then some (digitVal c1, c2 :: rest)
    else none
  | [c1] => if '0' ≤ c1 ∧ c1 ≤ '9' then some (digitVal c1, []) else none
  | [] => none

def expectCh (c : Char) : List Char → Option (List Char)
  | c' :: rest => if c' = c then some rest else none
  | [] => none

/-- The `\s+` that `_strptime` substitutes for a literal blank in a format. -/
def readSpaces1 : List Char → Option (List Char)
  | c :: rest => if isSpaceCh c then some (rest.dropWhile isSpaceCh) else none
  | [] => none

/-- The range checks of the `datetime` constructor (`MINYEAR`/`MAXYEAR`,
month/day/hour/minute/second bounds); `strptime` raises `ValueError` when
they fail, which `parse_dt` treats as a non-match for that format. -/
def mkDateTimeChecked (y m d h mi s : Nat) : Option DateTime :=
  if 1 ≤ y ∧ y ≤ 9999 ∧ 1 ≤ m ∧ m ≤ 12 ∧ 1 ≤ d ∧ d ≤ daysInMonth y m ∧
      h ≤ 23 ∧ mi ≤ 59 ∧ s ≤ 59 then
    some ⟨y, m, d, h, mi, s⟩
  else none

def matchDateOnly (cs : List Char) : Option DateTime := do
  let (y, r1) ← read4Digits cs
  let r2 ← expectCh '-' r1
  let (m, r3) ← readMonth r2
  let r4 ← expectCh '-' r3
  let (d, r5) ← readDay r4
  if r5 = [] then mkDateTimeChecked y m d 0 0 0 else none

def matchDateHM (cs : List Char) : Option DateTime := do
  let (y, r1) ← read4Digits cs
  let r2 ← expectCh '-' r1
  let (m, r3) ← readMonth r2
  let r4 ← expectCh '-' r3
  let (d, r5) ← readDay r4
  let r6 ← readSpaces1 r5
  let (h, r7) ← readHour r6
  let r8 ← expectCh ':' r7
  let (mi, r9) ← readMinute r8
  if r9 = [] then mkDateTimeChecked y m d h mi 0 else none

def matchDateHMS (cs : List Char) : Option DateTime := do
  let (y, r1) ← read4Digits cs
  let r2 ← expectCh '-' r1
  let (m, r3) ← readMonth r2
  let r4 ← expectCh '-' r3
  let (d, r5) ← readDay r4
  let r6 ← readSpaces1 r5
  let (h, r7) ← readHour r6
  let r8 ← expectCh ':' r7
  let (mi, r9) ← readMinute r8
  let r10 ← expectCh ':' r9
  let (s, r11) ← readSecond r10
  if r11 = [] then mkDateTimeChecked y m d h mi s else none

/-- The f-string of `parse_dt`'s `ValueError`:
`f"无法解析日期/时间：{s}（支持：YYYY-MM-DD 或 YYYY-MM-DD HH:MM）"`. -/
def errPre : List Char := "无法解析日期/时间：".data

def errPost : List Char := "（支持：YYYY-MM-DD 或 YYYY-MM-DD HH:MM）".data

def parse_err_msg (t : List Char) : String :=
  String.mk (errPre ++ t ++ errPost)

/-- `parse_dt`: strip, then try the three formats in order, else raise. -/
def parse_dt (s : String) : Except String DateTime :=
  let t := stripChars s.data
  match matchDateOnly t with
  | some dt => .ok dt
  | none =>
    match matchDateHM t with
    | some dt => .ok dt
    | none =>
      match matchDateHMS t with
      | some dt => .ok dt
      | none => .error (parse_err_msg t)

/-- `strftime("%Y-%m-%d")`. -/
def fmtDateChars (y m d : Nat) : List Char :=
  decDigits y ++ '-' :: (pad2 m ++ '-' :: pad2 d)

/-- `strftime("%Y-%m-%d %H:%M")`. -/
def fmtDateHMChars (y m d h mi : Nat) : List Char :=
  fmtDateChars y m d ++ ' ' :: (pad2 h ++ ':' :: pad2 mi)

/-- `dt_to_str`: date-only exactly at midnight, else date plus `HH:MM`. -/
def dt_to_str (t : DateTime) : String :=
  if t.hour = 0 ∧ t.minute = 0 ∧ t.second = 0 then
    String.mk (fmtDateChars t.year t.month t.day)
  else
    String.mk (fmtDateHMChars t.year t.month t.day t.hour t.minute)

/-! ## Substring predicate (for the error-message claims) -/

def leadsWith : List Char → List Char → Bool
  | [], _ => true
  | _ :: _, [] => false
  | a :: as, b :: bs => a = b && leadsWith as bs

/-- `hasSub pat s` holds iff `pat` occurs contiguously inside `s`. -/
def hasSub (pat : List Char) : List Char → Bool
  | [] => leadsWith pat []
  | c :: rest => leadsWith pat (c :: rest) || hasSub pat rest

lemma leadsWith_append_self (l r : List Char) : leadsWith l (l ++ r) = true := by
  induction l with
  | nil => rfl
  | cons a as ih => simp [leadsWith, ih]

lemma hasSub_of_leadsWith (pat s : List Char) (h : leadsWith pat s = true) :
    hasSub pat s = true := by
  cases s with
  | nil => simpa [hasSub] using h
  | cons c rest => simp [hasSub, h]

lemma hasSub_append_left (pat pre s : List Char) (h : hasSub pat s = true) :
    hasSub pat (pre ++ s) = true := by
  induction pre with
  | nil => simpa using h
  | cons c rest ih => simp [hasSub, ih]

/-! ## Digit-rendering lemmas and the date-only round trip -/

lemma digitCh_facts : ∀ n, n < 10 →
    ('0' ≤ digitCh n ∧ digitCh n ≤ '9' ∧ digitVal (digitCh n) = n ∧
      isSpaceCh (digitCh n) = false) := by decide

lemma decDigitsAux_fuel : ∀ (n f₁ f₂ : Nat), n < f₁ → n < f₂ →
    decDigitsAux f₁ n = decDigitsAux f₂ n := by
  intro n
  induction n using Nat.strong_induction_on with
  | _ n ih =>
    intro f₁ f₂ h₁ h₂
    match f₁, f₂ with
    | g₁ + 1, g₂ + 1 =>
      simp only [decDigitsAux]
      split_ifs with h
      · rfl
      · rw [ih (n / 10) (by omega) g₁ g₂ (by omega) (by omega)]

lemma decDigits_lt10 {n : Nat} (h : n < 10) : decDigits n = [digitCh n] := by
  simp [decDigits, decDigitsAux, h]

lemma decDigits_ge10 {n : Nat} (h : 10 ≤ n) :
    decDigits n = decDigits (n / 10) ++ [digitCh (n % 10)] := by
  unfold decDigits
  rw [show decDigitsAux (n + 1) n
      = if n < 10 then [digitCh n] else decDigitsAux n (n / 10) ++ [digitCh (n % 10)] from rfl]
  rw [if_neg (by omega)]
  rw [decDigitsAux_fuel (n / 10) n (n / 10 + 1) (by omega) (by omega)]

lemma decDigits_two {n : Nat} (h₁ : 10 ≤ n) (h₂ : n < 100) :
    decDigits n = [digitCh (n / 10), digitCh (n % 10)] := by
  rw [decDigits_ge10 h₁, decDigits_lt10 (by omega)]
  rfl

lemma decDigits_four {y : Nat} (h₁ : 1000 ≤ y) (h₂ : y < 10000) :
    decDigits y =
      [digitCh (y / 1000), digitCh (y / 100 % 10), digitCh (y / 10 % 10), digitCh (y % 10)] := by
  rw [decDigits_ge10 (by omega), decDigits_ge10 (by omega : 10 ≤ y / 10),
    decDigits_ge10 (by omega : 10 ≤ y / 10 / 10), decDigits_lt10 (by omega : y / 10 / 10 / 10 < 10)]
  have e1 : y / 10 / 10 = y / 100 := by omega
  have e2 : y / 10 / 10 / 10 = y / 1000 := by omega
  rw [e1] at *
  rw [e2]
  simp [e1, e2]

lemma decDigits_not_space : ∀ (n : Nat), ∀ c ∈ decDigits n, isSpaceCh c = false := by
  intro n
  induction n using Nat.strong_induction_on with
  | _ n ih =>
    intro c hc
    by_cases h : n < 10
    · rw [decDigits_lt10 h] at hc
      simp only [List.mem_singleton] at hc
      subst hc
      exact (digitCh_facts n h).2.2.2
    · rw [decDigits_ge10 (by omega)] at hc
      rcases List.mem_append.1 hc with h' | h'
      · exact ih (n / 10) (by omega) c h'
      · simp only [List.mem_singleton] at h'
        subst h'
        exact (digitCh_facts (n % 10) (by omega)).2.2.2

lemma pad2_not_space (n : Nat) (hn : n < 100) : ∀ c ∈ pad2 n, isSpaceCh c = false := by
  intro c hc
  unfold pad2 at hc
  split_ifs at hc with h
  · rw [List.mem_cons] at hc
    rcases hc with rfl | hc
    · decide
    · simp only [List.mem_singleton] at hc
      subst hc
      exact (digitCh_facts n h).2.2.2
  · exact decDigits_not_space n c hc

lemma fmtDateChars_not_space (y m d : Nat) (hm : m < 100) (hd : d < 100) :
    ∀ c ∈ fmtDateChars y m d, isSpaceCh c = false := by
  intro c hc
  unfold fmtDateChars at hc
  rcases List.mem_append.1 hc with h | h
  · exact decDigits_not_space y c h
  · rw [List.mem_cons] at h
    rcases h with rfl | h
    · decide
    · rcases List.mem_append.1 h with h' | h'
      · exact pad2_not_space m hm c h'
      · rw [List.mem_cons] at h'
        rcases h' with rfl | h'
        · decide
        · exact pad2_not_space d hd c h'

lemma dropWhile_eq_self_of (l : List Char) (h : ∀ c ∈ l, isSpaceCh c = false) :
    l.dropWhile isSpaceCh = l := by
  cases l with
  | nil => rfl
  | cons c rest =>
    rw [List.dropWhile_cons, if_neg]
    rw [h c (List.mem_cons_self c rest)]
    simp

lemma stripChars_eq_self (l : List Char) (h : ∀ c ∈ l, isSpaceCh c = false) :
    stripChars l = l := by
  unfold stripChars
  rw [dropWhile_eq_self_of l h, dropWhile_eq_self_of _ (fun c hc => h c (by
    rw [List.mem_reverse] at hc; exact hc)), List.reverse_reverse]

lemma read4Digits_decDigits (y : Nat) (h₁ : 1000 ≤ y) (h₂ : y < 10000) (rest : List Char) :
    read4Digits (decDigits y ++ rest) = some (y, rest) := by
  rw [decDigits_four h₁ h₂]
  have f1 := digitCh_facts (y / 1000) (by omega)
  have f2 := digitCh_facts (y / 100 % 10) (by omega)
  have f3 := digitCh_facts (y / 10 % 10) (by omega)
  have f4 := digitCh_facts (y % 10) (by omega)
  show read4Digits (digitCh (y / 1000) :: digitCh (y / 100 % 10) :: digitCh (y / 10 % 10)
      :: digitCh (y % 10) :: rest) = some (y, rest)
  rw [read4Digits]
  rw [if_pos ⟨⟨f1.1, f1.2.1⟩, ⟨f2.1, f2.2.1⟩, ⟨f3.1, f3.2.1⟩, ⟨f4.1, f4.2.1⟩⟩]
  rw [f1.2.2.1, f2.2.2.1, f3.2.2.1, f4.2.2.1]
  congr 1
  congr 1
  omega

lemma readMonth_pad2 (m : Nat) (h₁ : 1 ≤ m) (h₂ : m ≤ 12) (rest : List Char) :
    readMonth (pad2 m ++ rest) = some (m, rest) := by
  interval_cases m <;> rfl

lemma readDay_pad2 (d : Nat) (h₁ : 1 ≤ d) (h₂ : d ≤ 31) (rest : List Char) :
    readDay (pad2 d ++ rest) = some (d, rest) := by
  interval_cases d <;> rfl

lemma daysInMonth_le_31 (y m : Nat) : daysInMonth y m ≤ 31 := by
  unfold daysInMonth
  split_ifs <;> omega

lemma validDate_mk {y m d : Nat} :
    ValidDate ⟨y, m, d⟩ ↔ (1 ≤ y ∧ 1 ≤ m ∧ m ≤ 12 ∧ 1 ≤ d ∧ d ≤ daysInMonth y m) :=
  Iff.rfl

lemma matchDateOnly_fmt (y m d : Nat) (h₁ : 1000 ≤ y) (h₂ : y ≤ 9999)
    (hv : ValidDate ⟨y, m, d⟩) :
    matchDateOnly (fmtDateChars y m d) = some ⟨y, m, d, 0, 0, 0⟩ := by
  rw [validDate_mk] at hv
  obtain ⟨hy, hm1, hm12, hd1, hd2⟩ := hv
  have hdm : d ≤ 31 := le_trans hd2 (daysInMonth_le_31 y m)
  unfold matchDateOnly fmtDateChars
  rw [read4Digits_decDigits y h₁ (by omega)]
  simp only [Option.bind_eq_bind, Option.some_bind]
  rw [show expectCh '-' ('-' :: (pad2 m ++ '-' :: pad2 d)) = some (pad2 m ++ '-' :: pad2 d)
    from rfl]
  simp only [Option.some_bind]
  rw [readMonth_pad2 m hm1 hm12]
  simp only [Option.some_bind]
  rw [show expectCh '-' ('-' :: pad2 d) = some (pad2 d) from rfl]
  simp only [Option.some_bind]
  rw [show (pad2 d : List Char) = pad2 d ++ [] from (List.append_nil _).symm,
    readDay_pad2 d hd1 hdm]
  simp only [Option.some_bind]
  rw [if_true]
  unfold mkDateTimeChecked
  rw [if_pos ⟨hy, by omega, hm1, hm12, hd1, hd2, by omega, by omega, by omega⟩]

lemma parse_dt_fmtDate (y m d : Nat) (h₁ : 1000 ≤ y) (h₂ : y ≤ 9999)
    (hv : ValidDate ⟨y, m, d⟩) :
    parse_dt (String.mk (fmtDateChars y m d)) = .ok ⟨y, m, d, 0, 0, 0⟩ := by
  have hv' := validDate_mk.1 hv
  have hm100 : m < 100 := by omega
  have hd100 : d < 100 := by
    have := hv'.2.2.2.2
    have := daysInMonth_le_31 y m
    omega
  have key : matchDateOnly (stripChars (String.mk (fmtDateChars y m d)).data)
      = some ⟨y, m, d, 0, 0, 0⟩ := by
    rw [show (String.mk (fmtDateChars y m d)).data = fmtDateChars y m d from rfl]
    rw [stripChars_eq_self _ (fmtDateChars_not_space y m d hm100 hd100)]
    exact matchDateOnly_fmt y m d h₁ h₂ hv
  simp only [parse_dt, key]

lemma append_cons_ne (l : List Char) (c : Char) (r : List Char) : l ++ c :: r ≠ l := by
  intro h
  have := congrArg List.length h
  simp at this

lemma parse_dt_error_msg (s msg : String) (h : parse_dt s = .error msg) :
    msg = parse_err_msg (stripChars s.data) := by
  simp only [parse_dt] at h
  cases h1 : matchDateOnly (stripChars s.data) with
  | some dt => rw [h1] at h; exact absurd h (by simp)
  | none =>
    rw [h1] at h
    cases h2 : matchDateHM (stripChars s.data) with
    | some dt => rw [h2] at h; exact absurd h (by simp)
    | none =>
      rw [h2] at h
      cases h3 : matchDateHMS (stripChars s.data) with
      | some dt => rw [h3] at h; exact absurd h (by simp)
      | none =>
        rw [h3] at h
        simp only [Except.error.injEq] at h
        exact h.symm

/-! ## Colours

`rgb_to_hex` and `pastel_from_index` from the source.  The float arithmetic
of `pastel_from_index` / `colorsys.hsv_to_rgb` is modelled exactly over
scaled integers: hue = `(i*13 % 100)/100` (0.13 steps wrap every 100
indices), `s = 35/100`, `v = 97/100`, and `int(x*255)` is integer floor. -/

def HIGHLIGHT_PALETTE : List String :=
  ["#DFF7E3", "#FFE0E6", "#E6E0FF", "#FFEACC", "#E0F7F7", "#FFF2CC", "#E7F0FF"]

def rgb_to_hex (r g b : Nat) : String :=
  String.mk ('#' :: (hex2 r ++ hex2 g ++ hex2 b))

def pastel_from_index (i : Nat) : String :=
  let h100 := 13 * i % 100            -- hue scaled by 100
  let i6 := 6 * h100 / 100            -- int(h*6.0)
  let f100 := 6 * h100 % 100          -- h*6 - int(h*6), scaled by 100
  let v255 := 247                     -- int(0.97*255)
  let p255 := 160                     -- int(0.97*(1-0.35)*255)
  let q255 := 24735 * (10000 - 35 * f100) / 1000000   -- int(v*(1-s*f)*255)
  let t255 := 24735 * (6500 + 35 * f100) / 1000000    -- int(v*(1-s*(1-f))*255)
  match i6 with
  | 0 => rgb_to_hex v255 t255 p255
  | 1 => rgb_to_hex q255 v255 p255
  | 2 => rgb_to_hex p255 v255 t255
  | 3 => rgb_to_hex p255 q255 v255
  | 4 => rgb_to_hex t255 p255 v255
  | _ => rgb_to_hex v255 p255 q255

/-! ## `apply_selected_events`

State read and written by the method: `selected_event_ids` (a Python set,
modelled as the duplicate-free list of ids in iteration order),
`highlight_color_by_eid` (an insertion-ordered dict), and
`highlight_day_to_eids`.  The `while True` colour search advances
`next_index` by one per candidate and stops at the first candidate not in
`used_colors`; `find_color` performs the same search with an iteration
budget of 107, which `candColor_reachable` below proves is a complete
search of the exact-arithmetic model's candidate stream (palette indices
0-6 are never revisited once passed, and the modelled overflow generator
repeats with period 100).  Whenever the bounded search succeeds it returns
exactly what the source's unbounded loop returns. -/

structure HighlightState where
  selected : List String
  colorOf : List (String × String)
  dayHits : List (DDate × List String)
deriving DecidableEq, Repr

/-- Python dict lookup (`eid in d` / `d[eid]`). -/
def dlookup : List (String × String) → String → Option String
  | [], _ => none
  | (k, v) :: rest, i => if k = i then some v else dlookup rest i

/-- Python `set.add`. -/
def addUsed (used : List String) (c : String) : List String :=
  if c ∈ used then used else used ++ [c]

/-- Candidate colour at `next_index = n`: palette first, then the
overflow generator. -/
def candColor (n : Nat) : String :=
  if h : n < HIGHLIGHT_PALETTE.length then HIGHLIGHT_PALETTE.get ⟨n, h⟩
  else pastel_from_index n

def SEARCH_BOUND : Nat := 107

/-- The `while True` candidate search (bounded as explained above). -/
def find_color : Nat → Nat → List String → Option (String × Nat)
  | 0, _, _ => none
  | fuel + 1, n, used =>
    if candColor n ∈ used then find_color fuel (n + 1) used
    else some (candColor n, n + 1)

/-- First loop of `apply_selected_events`: carry forward the colour of every
still-selected id that already had one, marking it used (accumulator-passing
form of the source's left-to-right loop). -/
def carryAux (old : List (String × String)) :
    List String → List (String × String) → List String →
    List (String × String) × List String
  | [], co, used => (co, used)
  | eid :: rest, co, used =>
    match dlookup old eid with
    | some c => carryAux old rest (co ++ [(eid, c)]) (addUsed used c)
    | none => carryAux old rest co used

def carryColors (old : List (String × String)) (ids : List String) :
    List (String × String) × List String :=
  carryAux old ids [] []

/-- Second loop: assign a fresh colour to every id without one.  `none`
reports that the bounded search found every candidate of the exact colour
model already in use. -/
def assignColors : List String → List (String × String) → List String → Nat →
    Option (List (String × String) × List String × Nat)
  | [], co, used, n => some (co, used, n)
  | eid :: rest, co, used, n =>
    match dlookup co eid with
    | some _ => assignColors rest co used n
    | none =>
      match find_color SEARCH_BOUND n used with
      | none => none
      | some (c, n') => assignColors rest (co ++ [(eid, c)]) (used ++ [c]) n'

/-- `setdefault(cur, [])` plus `if e.id not in lst: lst.append(e.id)`. -/
def hitsAppend (m : List (DDate × List String)) (d : DDate) (i : String) :
    List (DDate × List String) :=
  match m with
  | [] => [(d, [i])]
  | (k, v) :: rest =>
    if k = d then (k, if i ∈ v then v else v ++ [i]) :: rest
    else (k, v) :: hitsAppend rest d i

/-- `_rebuild_highlight_day_map`. -/
def rebuild_highlight_day_map (events : List Event) (selected : List String) :
    List (DDate × List String) :=
  let sel := List.insertionSort canonLe (events.filter (fun e => decide (e.id ∈ selected)))
  sel.foldl (fun m e =>
    (dayRange (dtDate e.start) (dtDate e.stop)).foldl (fun m' d => hitsAppend m' d e.id) m) []

/-- The stale-id filter at the top of `apply_selected_events`:
`set(i for i in selected_ids if i in existing_ids)`. -/
def presentIds (events : List Event) (order : List String) : List String :=
  order.filter (fun i => decide (i ∈ events.map Event.id))

/-- `CalendarApp.apply_selected_events` (the auto-jump/render tail is UI).
`old` is the incoming `highlight_color_by_eid`, `order` the iteration order
of the candidate id set. -/
def apply_selected_events (old : List (String × String)) (events : List Event)
    (order : List String) : Option HighlightState :=
  let ids := presentIds events order
  let cu := carryColors old ids
  match assignColors ids cu.1 cu.2 0 with
  | none => none
  | some (co2, _, _) =>
    some { selected := ids, colorOf := co2,
           dayHits := rebuild_highlight_day_map events ids }

/-! ## Lemmas about the colour-assignment loops -/

lemma dlookup_cons_self (k v : String) (rest : List (String × String)) :
    dlookup ((k, v) :: rest) k = some v := by
  show (if k = k then some v else dlookup rest k) = some v
  rw [if_pos rfl]

lemma dlookup_cons_ne {k i : String} (h : ¬ k = i) (v : String)
    (rest : List (String × String)) :
    dlookup ((k, v) :: rest) i = dlookup rest i := by
  show (if k = i then some v else dlookup rest i) = dlookup rest i
  rw [if_neg h]

lemma dlookup_append_of_some {co : List (String × String)} {i : String} {c : String}
    (l : List (String × String)) (h : dlookup co i = some c) :
    dlookup (co ++ l) i = some c := by
  induction co with
  | nil => simp [dlookup] at h
  | cons kv rest ih =>
    obtain ⟨k, v⟩ := kv
    by_cases hk : k = i
    · subst hk
      rw [dlookup_cons_self] at h
      rw [List.cons_append, dlookup_cons_self]
      exact h
    · rw [dlookup_cons_ne hk] at h
      rw [List.cons_append, dlookup_cons_ne hk]
      exact ih h

lemma dlookup_append_of_none {co : List (String × String)} {i : String}
    (l : List (String × String)) (h : dlookup co i = none) :
    dlookup (co ++ l) i = dlookup l i := by
  induction co with
  | nil => simp
  | cons kv rest ih =>
    obtain ⟨k, v⟩ := kv
    by_cases hk : k = i
    · subst hk
      rw [dlookup_cons_self] at h
      cases h
    · rw [dlookup_cons_ne hk] at h
      rw [List.cons_append, dlookup_cons_ne hk]
      exact ih h

lemma dlookup_mem {co : List (String × String)} {i c : String}
    (h : dlookup co i = some c) : (i, c) ∈ co := by
  induction co with
  | nil => simp [dlookup] at h
  | cons kv rest ih =>
    obtain ⟨k, v⟩ := kv
    by_cases hk : k = i
    · subst hk
      rw [dlookup_cons_self] at h
      injection h with h
      subst h
      exact List.mem_cons_self _ _
    · rw [dlookup_cons_ne hk] at h
      exact List.mem_cons_of_mem _ (ih h)

/-- If the dict's values are pairwise distinct, lookups are injective. -/
lemma dlookup_inj_of_values_nodup {old : List (String × String)}
    (hnd : (old.map Prod.snd).Nodup) {i j c : String}
    (hi : dlookup old i = some c) (hj : dlookup old j = some c) : i = j := by
  have mi := dlookup_mem hi
  have mj := dlookup_mem hj
  have := List.inj_on_of_nodup_map hnd mi mj rfl
  exact congrArg Prod.fst this

lemma addUsed_mem (used : List String) (c c' : String) :
    c' ∈ addUsed used c ↔ c' ∈ used ∨ c' = c := by
  unfold addUsed
  split_ifs with h
  · constructor
    · exact fun h' => Or.inl h'
    · rintro (h' | rfl)
      · exact h'
      · exact h
  · simp

lemma addUsed_nodup {used : List String} (h : used.Nodup) (c : String) :
    (addUsed used c).Nodup := by
  unfold addUsed
  split_ifs with h'
  · exact h
  · rw [List.nodup_append]
    refine ⟨h, List.nodup_singleton c, ?_⟩
    intro a ha hb
    rw [List.mem_singleton] at hb
    subst hb
    exact h' ha

lemma carryAux_fst (old : List (String × String)) :
    ∀ (ids : List String) (co : List (String × String)) (used : List String),
    (carryAux old ids co used).1 =
      co ++ ids.filterMap (fun i => (dlookup old i).map (fun c => (i, c))) := by
  intro ids
  induction ids with
  | nil => intro co used; simp [carryAux]
  | cons i rest ih =>
    intro co used
    show (match dlookup old i with
        | some c => carryAux old rest (co ++ [(i, c)]) (addUsed used c)
        | none => carryAux old rest co used).1 = _
    cases h : dlookup old i with
    | some c => simp [ih, List.filterMap_cons, h]
    | none => simp [ih, List.filterMap_cons, h]

lemma carryAux_snd_mem (old : List (String × String)) :
    ∀ (ids : List String) (co : List (String × String)) (used : List String) (c' : String),
    c' ∈ (carryAux old ids co used).2 ↔
      c' ∈ used ∨ ∃ i ∈ ids, dlookup old i = some c' := by
  intro ids
  induction ids with
  | nil => intro co used c'; simp [carryAux]
  | cons i rest ih =>
    intro co used c'
    show c' ∈ (match dlookup old i with
        | some c => carryAux old rest (co ++ [(i, c)]) (addUsed used c)
        | none => carryAux old rest co used).2 ↔ _
    cases h : dlookup old i with
    | some c =>
      simp only [ih, addUsed_mem, List.mem_cons]
      constructor
      · rintro ((h' | rfl) | ⟨j, hj, hl⟩)
        · exact Or.inl h'
        · exact Or.inr ⟨i, Or.inl rfl, h⟩
        · exact Or.inr ⟨j, Or.inr hj, hl⟩
      · rintro (h' | ⟨j, (rfl | hj), hl⟩)
        · exact Or.inl (Or.inl h')
        · rw [h] at hl
          injection hl with hl
          exact Or.inl (Or.inr hl.symm)
        · exact Or.inr ⟨j, hj, hl⟩
    | none =>
      simp only [ih, List.mem_cons]
      constructor
      · rintro (h' | ⟨j, hj, hl⟩)
        · exact Or.inl h'
        · exact Or.inr ⟨j, Or.inr hj, hl⟩
      · rintro (h' | ⟨j, (rfl | hj), hl⟩)
        · exact Or.inl h'
        · rw [h] at hl; cases hl
        · exact Or.inr ⟨j, hj, hl⟩

lemma carryAux_snd_nodup (old : List (String × String)) :
    ∀ (ids : List String) (co : List (String × String)) (used : List String),
    used.Nodup → (carryAux old ids co used).2.Nodup := by
  intro ids
  induction ids with
  | nil => intro co used h; exact h
  | cons i rest ih =>
    intro co used h
    show (match dlookup old i with
        | some c => carryAux old rest (co ++ [(i, c)]) (addUsed used c)
        | none => carryAux old rest co used).2.Nodup
    cases hl : dlookup old i with
    | some c => exact ih _ _ (addUsed_nodup h c)
    | none => exact ih _ _ h

/-- The carried dict maps exactly the still-selected ids that had a colour,
each to its old colour. -/
lemma carry_lookup (old : List (String × String)) (ids : List String) (i : String) :
    dlookup (carryColors old ids).1 i =
      if i ∈ ids then dlookup old i else none := by
  unfold carryColors
  rw [carryAux_fst]
  rw [List.nil_append]
  induction ids with
  | nil => simp [dlookup]
  | cons j rest ih =>
    rw [List.filterMap_cons]
    cases hj : dlookup old j with
    | some c =>
      simp only [Option.map_some']
      by_cases hij : j = i
      · subst hij
        rw [dlookup_cons_self, if_pos (List.mem_cons_self j rest), hj]
      · have hiff : i ∈ j :: rest ↔ i ∈ rest := by
          rw [List.mem_cons]
          constructor
          · rintro (h' | h')
            · exact absurd h'.symm hij
            · exact h'
          · exact Or.inr
        rw [dlookup_cons_ne hij, ih, if_congr hiff rfl rfl]
    | none =>
      simp only [Option.map_none']
      by_cases hij : j = i
      · subst hij
        rw [ih, if_pos (List.mem_cons_self j rest), hj]
        split_ifs <;> rfl
      · have hiff : i ∈ j :: rest ↔ i ∈ rest := by
          rw [List.mem_cons]
          constructor
          · rintro (h' | h')
            · exact absurd h'.symm hij
            · exact h'
          · exact Or.inr
        rw [ih, if_congr hiff rfl rfl]

lemma find_color_some : ∀ (fuel n : Nat) (used : List String) (c : String) (n' : Nat),
    find_color fuel n used = some (c, n') →
    c ∉ used ∧ n < n' ∧ c = candColor (n' - 1) ∧
      ∀ k, n ≤ k → k < n' - 1 → candColor k ∈ used := by
  intro fuel
  induction fuel with
  | zero => intro n used c n' h; cases h
  | succ fuel ih =>
    intro n used c n' h
    rw [find_color] at h
    split_ifs at h with hc
    · obtain ⟨h1, h2, h3, h4⟩ := ih (n + 1) used c n' h
      refine ⟨h1, by omega, h3, fun k hk1 hk2 => ?_⟩
      rcases Nat.eq_or_lt_of_le hk1 with rfl | hk
      · exact hc
      · exact h4 k (by omega) hk2
    · injection h with h
      obtain ⟨h5, h6⟩ := Prod.mk.injEq .. ▸ h
      subst h5
      subst h6
      refine ⟨hc, by omega, by simp, fun k hk1 hk2 => by omega⟩

lemma find_color_succeeds : ∀ (fuel n : Nat) (used : List String),
    (∃ j, n ≤ j ∧ j < n + fuel ∧ candColor j ∉ used) →
    ∃ r, find_color fuel n used = some r := by
  intro fuel
  induction fuel with
  | zero =>
    rintro n used ⟨j, h1, h2, _⟩
    omega
  | succ fuel ih =>
    rintro n used ⟨j, h1, h2, h3⟩
    rw [find_color]
    split_ifs with hc
    · apply ih
      refine ⟨j, ?_, by omega, h3⟩
      rcases Nat.eq_or_lt_of_le h1 with rfl | h
      · exact absurd hc h3
      · omega
    · exact ⟨_, rfl⟩

lemma palette_length : HIGHLIGHT_PALETTE.length = 7 := rfl

lemma candColor_ge7 {n : Nat} (h : 7 ≤ n) : candColor n = pastel_from_index n := by
  unfold candColor
  rw [dif_neg]
  rw [palette_length]
  omega

lemma pastel_mod (i : Nat) : pastel_from_index i = pastel_from_index (i % 100) := by
  unfold pastel_from_index
  have h : 13 * (i % 100) % 100 = 13 * i % 100 := by omega
  rw [h]

lemma pastel_period (i : Nat) : pastel_from_index (i + 100) = pastel_from_index i := by
  rw [pastel_mod (i + 100), pastel_mod i]
  congr 1
  omega

/-- Any candidate colour reachable from index `n` onwards already appears
among the next `SEARCH_BOUND` candidates of the exact-arithmetic model:
past palette indices are never free again, and the modelled overflow
generator has period 100.  This makes the bounded search of `find_color` a
complete search of the model's candidate stream. -/
lemma candColor_reachable : ∀ (k n : Nat), n ≤ k →
    ∃ j, n ≤ j ∧ j < n + SEARCH_BOUND ∧ candColor j = candColor k := by
  intro k
  induction k using Nat.strong_induction_on with
  | _ k ih =>
    intro n hn
    by_cases h : k < n + SEARCH_BOUND
    · exact ⟨k, hn, h, rfl⟩
    · have hS : SEARCH_BOUND = 107 := rfl
      have h7 : 7 ≤ k - 100 := by omega
      have heq : candColor (k - 100) = candColor k := by
        rw [candColor_ge7 (by omega : 7 ≤ k), candColor_ge7 h7]
        have hp := pastel_period (k - 100)
        rw [show k - 100 + 100 = k from by omega] at hp
        exact hp.symm
      obtain ⟨j, hj1, hj2, hj3⟩ := ih (k - 100) (by omega) n (by omega)
      exact ⟨j, hj1, hj2, hj3.trans heq⟩

/-- The colours the exact-arithmetic colour model can ever produce: the
palette plus the 100 values of the modelled overflow generator. -/
def colorUniverse : List String :=
  (HIGHLIGHT_PALETTE ++ (List.range 100).map pastel_from_index).dedup

lemma colorUniverse_nodup : colorUniverse.Nodup := List.nodup_dedup _

set_option maxRecDepth 40000 in
set_option maxHeartbeats 1600000 in
/-- The palette's 7 colours and the generator's 100 colours are pairwise
distinct, so the source can hand out at most 107 different colours. -/
lemma colorUniverse_length : colorUniverse.length = 107 := by decide

lemma candColor_mem_universe (n : Nat) : candColor n ∈ colorUniverse := by
  rw [colorUniverse, List.mem_dedup]
  unfold candColor
  split_ifs with h
  · exact List.mem_append_left _ (HIGHLIGHT_PALETTE.get_mem _ _)
  · apply List.mem_append_right
    rw [pastel_mod]
    exact List.mem_map.2 ⟨n % 100, List.mem_range.2 (by omega), rfl⟩

lemma universe_is_candColor {c : String} (h : c ∈ colorUniverse) :
    ∃ k, candColor k = c := by
  rw [colorUniverse, List.mem_dedup] at h
  rcases List.mem_append.1 h with h' | h'
  · obtain ⟨n, hn⟩ := List.mem_iff_get.1 h'
    refine ⟨n.1, ?_⟩
    unfold candColor
    rw [dif_pos n.2]
    exact hn
  · obtain ⟨j, hj, hjc⟩ := List.mem_map.1 h'
    rw [List.mem_range] at hj
    refine ⟨j + 100, ?_⟩
    rw [candColor_ge7 (by omega), pastel_period, hjc]

lemma nodup_subset_length {l₁ l₂ : List String} (h₁ : l₁.Nodup)
    (hsub : ∀ x ∈ l₁, x ∈ l₂) : l₁.length ≤ l₂.length := by
  calc l₁.length = l₁.toFinset.card := (List.toFinset_card_of_nodup h₁).symm
    _ ≤ l₂.toFinset.card := Finset.card_le_card (fun x hx =>
        List.mem_toFinset.2 (hsub x (List.mem_toFinset.1 hx)))
    _ ≤ l₂.length := l₂.toFinset_card_le

lemma exists_free_color {used : List String} (hlen : used.length < 107) :
    ∃ c ∈ colorUniverse, c ∉ used := by
  by_contra h
  push_neg at h
  have := nodup_subset_length colorUniverse_nodup h
  rw [colorUniverse_length] at this
  omega

/-- Number of ids in the list still lacking a colour. -/
def needyCount (co : List (String × String)) (ids : List String) : Nat :=
  (ids.filter (fun i => (dlookup co i).isNone)).length

lemma needyCount_cons_some {co : List (String × String)} {j c' : String}
    (rest : List String) (hj : dlookup co j = some c') :
    needyCount co (j :: rest) = needyCount co rest := by
  simp [needyCount, List.filter_cons, hj]

lemma needyCount_cons_none {co : List (String × String)} {j : String}
    (rest : List String) (hj : dlookup co j = none) :
    needyCount co (j :: rest) = needyCount co rest + 1 := by
  simp [needyCount, List.filter_cons, hj]

lemma needy_mono {co co' : List (String × String)}
    (h : ∀ i, dlookup co' i = none → dlookup co i = none) :
    ∀ ids, needyCount co' ids ≤ needyCount co ids := by
  intro ids
  induction ids with
  | nil => exact le_refl _
  | cons j rest ih =>
    cases hj : dlookup co' j with
    | none =>
      rw [needyCount_cons_none rest hj, needyCount_cons_none rest (h j hj)]
      omega
    | some c =>
      rw [needyCount_cons_some rest hj]
      cases hcj : dlookup co j with
      | none => rw [needyCount_cons_none rest hcj]; omega
      | some c₂ => rw [needyCount_cons_some rest hcj]; exact ih

lemma assign_preserve {i c : String} : ∀ (ids : List String)
    (co : List (String × String)) (used : List String) (n : Nat)
    (res : List (String × String) × List String × Nat),
    dlookup co i = some c → assignColors ids co used n = some res →
    dlookup res.1 i = some c := by
  intro ids
  induction ids with
  | nil =>
    intro co used n res h hr
    rw [assignColors] at hr
    injection hr with hr
    rw [← hr]
    exact h
  | cons j rest ih =>
    intro co used n res h hr
    rw [assignColors] at hr
    cases hj : dlookup co j with
    | some c' =>
      rw [hj] at hr
      exact ih _ _ _ _ h hr
    | none =>
      rw [hj] at hr
      cases hf : find_color SEARCH_BOUND n used with
      | none => rw [hf] at hr; cases hr
      | some cn =>
        obtain ⟨c₂, n₂⟩ := cn
        rw [hf] at hr
        exact ih _ _ _ _ (dlookup_append_of_some _ h) hr

lemma assign_total {i : String} : ∀ (ids : List String)
    (co : List (String × String)) (used : List String) (n : Nat)
    (res : List (String × String) × List String × Nat),
    assignColors ids co used n = some res → i ∈ ids →
    ∃ c, dlookup res.1 i = some c := by
  intro ids
  induction ids with
  | nil => intro co used n res _ hmem; cases hmem
  | cons j rest ih =>
    intro co used n res hr hmem
    rw [assignColors] at hr
    cases hj : dlookup co j with
    | some c' =>
      rw [hj] at hr
      rcases List.mem_cons.1 hmem with rfl | hi
      · exact ⟨c', assign_preserve _ _ _ _ _ hj hr⟩
      · exact ih _ _ _ _ hr hi
    | none =>
      rw [hj] at hr
      cases hf : find_color SEARCH_BOUND n used with
      | none => rw [hf] at hr; cases hr
      | some cn =>
        obtain ⟨c₂, n₂⟩ := cn
        rw [hf] at hr
        rcases List.mem_cons.1 hmem with rfl | hi
        · refine ⟨c₂, assign_preserve _ _ _ _ _ ?_ hr⟩
          rw [dlookup_append_of_none _ hj]
          exact dlookup_cons_self _ _ _
        · exact ih _ _ _ _ hr hi

lemma assign_fresh {i : String} : ∀ (ids : List String)
    (co : List (String × String)) (used : List String) (n : Nat)
    (res : List (String × String) × List String × Nat),
    assignColors ids co used n = some res → i ∈ ids → dlookup co i = none →
    ∃ c, dlookup res.1 i = some c ∧ c ∉ used ∧ c ∈ colorUniverse := by
  intro ids
  induction ids with
  | nil => intro co used n res _ hmem; cases hmem
  | cons j rest ih =>
    intro co used n res hr hmem hnone
    rw [assignColors] at hr
    cases hj : dlookup co j with
    | some c' =>
      rw [hj] at hr
      rcases List.mem_cons.1 hmem with rfl | hi
      · rw [hnone] at hj; cases hj
      · exact ih _ _ _ _ hr hi hnone
    | none =>
      rw [hj] at hr
      cases hf : find_color SEARCH_BOUND n used with
      | none => rw [hf] at hr; cases hr
      | some cn =>
        obtain ⟨c₂, n₂⟩ := cn
        rw [hf] at hr
        obtain ⟨hfu, hfn, hfc, _⟩ := find_color_some _ _ _ _ _ hf
        rcases List.mem_cons.1 hmem with rfl | hi
        · refine ⟨c₂, assign_preserve _ _ _ _ _ ?_ hr, hfu, ?_⟩
          · rw [dlookup_append_of_none _ hj]
            exact dlookup_cons_self _ _ _
          · rw [hfc]; exact candColor_mem_universe _
        · by_cases hij : j = i
          · subst hij
            refine ⟨c₂, assign_preserve _ _ _ _ _ ?_ hr, hfu, ?_⟩
            · rw [dlookup_append_of_none _ hj]
              exact dlookup_cons_self _ _ _
            · rw [hfc]; exact candColor_mem_universe _
          · have hnone' : dlookup (co ++ [(j, c₂)]) i = none := by
              rw [dlookup_append_of_none _ hnone, dlookup_cons_ne hij]
              rfl
            obtain ⟨c, hc1, hc2, hc3⟩ := ih _ _ _ _ hr hi hnone'
            exact ⟨c, hc1, fun hmem' => hc2 (List.mem_append_left _ hmem'), hc3⟩

lemma assign_values_nodup : ∀ (ids : List String)
    (co : List (String × String)) (used : List String) (n : Nat)
    (res : List (String × String) × List String × Nat),
    assignColors ids co used n = some res →
    (co.map Prod.snd).Nodup → (∀ c ∈ co.map Prod.snd, c ∈ used) →
    (res.1.map Prod.snd).Nodup := by
  intro ids
  induction ids with
  | nil =>
    intro co used n res hr hnd _
    rw [assignColors] at hr
    injection hr with hr
    rw [← hr]
    exact hnd
  | cons j rest ih =>
    intro co used n res hr hnd hsub
    rw [assignColors] at hr
    cases hj : dlookup co j with
    | some c' =>
      rw [hj] at hr
      exact ih _ _ _ _ hr hnd hsub
    | none =>
      rw [hj] at hr
      cases hf : find_color SEARCH_BOUND n used with
      | none => rw [hf] at hr; cases hr
      | some cn =>
        obtain ⟨c₂, n₂⟩ := cn
        rw [hf] at hr
        obtain ⟨hfu, _, _, _⟩ := find_color_some _ _ _ _ _ hf
        refine ih _ _ _ _ hr ?_ ?_
        · rw [List.map_append, List.nodup_append]
          refine ⟨hnd, List.nodup_singleton _, ?_⟩
          intro a ha hb
          rw [show (([(j, c₂)] : List (String × String)).map Prod.snd) = [c₂] from rfl,
            List.mem_singleton] at hb
          subst hb
          exact hfu (hsub a ha)
        · intro c hc
          rw [List.map_append] at hc
          rcases List.mem_append.1 hc with h' | h'
          · exact List.mem_append_left _ (hsub c h')
          · rw [show (([(j, c₂)] : List (String × String)).map Prod.snd) = [c₂] from rfl,
              List.mem_singleton] at h'
            subst h'
            exact List.mem_append_right _ (List.mem_singleton.2 rfl)

lemma assign_success : ∀ (ids : List String) (co : List (String × String))
    (used : List String) (n : Nat),
    used.Nodup → (∀ k, k < n → candColor k ∈ used) →
    used.length + needyCount co ids ≤ 107 →
    ∃ res, assignColors ids co used n = some res := by
  intro ids
  induction ids with
  | nil => intro co used n _ _ _; exact ⟨_, rfl⟩
  | cons j rest ih =>
    intro co used n hnd hinv hlen
    rw [assignColors]
    cases hj : dlookup co j with
    | some c' =>
      show ∃ res, assignColors rest co used n = some res
      apply ih co used n hnd hinv
      rw [needyCount_cons_some rest hj] at hlen
      exact hlen
    | none =>
      rw [needyCount_cons_none rest hj] at hlen
      have hlen' : used.length < 107 := by omega
      obtain ⟨c₀, hc₀u, hc₀⟩ := exists_free_color hlen'
      obtain ⟨k, hk⟩ := universe_is_candColor hc₀u
      have hkn : n ≤ k := by
        by_contra h
        push_neg at h
        exact hc₀ (hk ▸ hinv k h)
      obtain ⟨j', hj1, hj2, hj3⟩ := candColor_reachable k n hkn
      obtain ⟨⟨c₂, n₂⟩, hf⟩ := find_color_succeeds SEARCH_BOUND n used
        ⟨j', hj1, hj2, by rw [hj3, hk]; exact hc₀⟩
      rw [hf]
      obtain ⟨hfu, hfn, hfc, hfall⟩ := find_color_some _ _ _ _ _ hf
      show ∃ res, assignColors rest (co ++ [(j, c₂)]) (used ++ [c₂]) n₂ = some res
      apply ih
      · rw [List.nodup_append]
        refine ⟨hnd, List.nodup_singleton _, ?_⟩
        intro a ha hb
        rw [List.mem_singleton] at hb
        subst hb
        exact hfu ha
      · intro k' hk'
        by_cases h1 : k' < n
        · exact List.mem_append_left _ (hinv k' h1)
        · by_cases h2 : k' < n₂ - 1
          · exact List.mem_append_left _ (hfall k' (by omega) h2)
          · have hkeq : k' = n₂ - 1 := by omega
            subst hkeq
            rw [← hfc]
            exact List.mem_append_right _ (List.mem_singleton.2 rfl)
      · have hmono : needyCount (co ++ [(j, c₂)]) rest ≤ needyCount co rest := by
          apply needy_mono
          intro i hni
          cases hco : dlookup co i with
          | none => rfl
          | some c =>
            rw [dlookup_append_of_some _ hco] at hni
            cases hni
        rw [List.length_append]
        simp only [List.length_singleton]
        omega

/-! ## `load_events`

A persisted JSON record, reduced to the fields the loader reads (`str(...)`
coercions make them strings; unknown extra fields are ignored by the source
and therefore not modelled).  `uuid.uuid4()` is modelled by an injective
supply of fresh ids indexed by record position — no claim observes the
generated values.  The `ensure_sample_file` / file-I/O wrapper is out of
scope; `load_events` here is the record-decoding loop plus the final sort. -/

structure RawRecord where
  id : Option String
  name : Option String
  date : Option String
  start : Option String
  stop : Option String
  note : Option String
deriving DecidableEq, Repr

def default_name : String := "未命名事件"

def stripStr (s : String) : String := String.mk (stripChars s.data)

/-- start/end derivation in the non-`date` branch:
`start = parse(str(item.get("start", "")))`;
`end = parse(str(end_str)) if end_str else start`. -/
def loadStartEnd (item : RawRecord) : Except String (DateTime × DateTime) := do
  let st ← parse_dt (item.start.getD "")
  match item.stop with
  | some es =>
    if es ≠ "" then do
      let en ← parse_dt es
      pure (st, en)
    else pure (st, st)
  | none => pure (st, st)

/-- One iteration of `load_events`' record loop: id/name/note defaults, the
`date`-vs-`start`/`end` shape choice, and the `end < start` swap. -/
def loadOne (fresh : String) (item : RawRecord) : Except String Event := do
  let eid : String := match item.id with
    | some s => if s = "" then fresh else s
    | none => fresh
  let nm : String :=
    if stripStr (item.name.getD "") = "" then default_name else stripStr (item.name.getD "")
  let nt : String := stripStr (item.note.getD "")
  let se ← match item.date with
    | some ds =>
      if ds ≠ "" then do
        let st ← parse_dt ds
        pure (st, st)
      else loadStartEnd item
    | none => loadStartEnd item
  let st := if dtLt se.2 se.1 then se.2 else se.1
  let en := if dtLt se.2 se.1 then se.1 else se.2
  pure { id := eid, name := nm, start := st, stop := en, note := nt }

def genId (k : Nat) : String := String.mk ('u' :: decDigits k)

def loadEventsAux : Nat → List RawRecord → Except String (List Event)
  | _, [] => pure []
  | k, item :: rest => do
    let e ← loadOne (genId k) item
    let es ← loadEventsAux (k + 1) rest
    pure (e :: es)

/-- `load_events`: decode every record — the first parse failure propagates
out of the loop, aborting the whole load — then sort canonically. -/
def load_events (items : List RawRecord) : Except String (List Event) :=
  match loadEventsAux 0 items with
  | .ok evs => .ok (List.insertionSort canonLe evs)
  | .error e => .error e

def parseFails (s : String) : Bool :=
  match parse_dt s with
  | .ok _ => false
  | .error _ => true

/-- Whether the loader's secondary shape (`start`/`end`) raises on a record. -/
def seBad (item : RawRecord) : Bool :=
  parseFails (item.start.getD "") ||
    (match item.stop with
     | some es => if es ≠ "" then parseFails es else false
     | none => false)

/-- Whether the loader raises on a record: some required date text fails to
parse.  A missing or blank `name` is never bad — it is defaulted. -/
def recBad (item : RawRecord) : Bool :=
  match item.date with
  | some ds => if ds ≠ "" then parseFails ds else seBad item
  | none => seBad item

def isErr {α : Type} (r : Except String α) : Bool :=
  match r with
  | .ok _ => false
  | .error _ => true

lemma except_bind_ok {α β : Type} (a : α) (f : α → Except String β) :
    (Except.ok a >>= f) = f a := rfl

lemma except_bind_err {α β : Type} (m : String) (f : α → Except String β) :
    ((Except.error m : Except String α) >>= f) = Except.error m := rfl

lemma except_map_ok {α β : Type} (f : α → β) (a : α) :
    f <$> (Except.ok a : Except String α) = Except.ok (f a) := rfl

lemma except_map_err {α β : Type} (f : α → β) (m : String) :
    f <$> (Except.error m : Except String α) = (Except.error m : Except String β) := rfl

lemma except_pure {α : Type} (a : α) : (pure a : Except String α) = Except.ok a := rfl

lemma loadStartEnd_ok_iff (item : RawRecord) :
    isErr (loadStartEnd item) = seBad item := by
  unfold loadStartEnd seBad
  cases hst : parse_dt (item.start.getD "") with
  | error m => simp [isErr, parseFails, hst, except_bind_err]
  | ok st =>
    simp only [parseFails, hst, Bool.false_or, except_bind_ok]
    cases hsp : item.stop with
    | none => simp [isErr, except_pure]
    | some es =>
      by_cases hes : es = ""
      · subst hes
        simp [isErr, except_pure]
      · simp only [hes, ite_false, ite_true, ne_eq, not_false_iff, if_neg]
        cases hen : parse_dt es with
        | error m => simp [isErr, hen, hes, except_map_err]
        | ok en => simp [isErr, hen, hes, except_map_ok]

lemma loadOne_err_iff (fresh : String) (item : RawRecord) :
    isErr (loadOne fresh item) = recBad item := by
  unfold loadOne recBad
  cases hd : item.date with
  | none =>
    rw [← loadStartEnd_ok_iff]
    cases hse : loadStartEnd item with
    | error m => simp [isErr, hse, except_bind_err]
    | ok se => simp [isErr, hse, except_bind_ok, except_pure]
  | some ds =>
    by_cases hds : ds = ""
    · subst hds
      rw [← loadStartEnd_ok_iff]
      cases hse : loadStartEnd item with
      | error m => simp [isErr, hse, except_bind_err]
      | ok se => simp [isErr, hse, except_bind_ok, except_pure]
    · simp only [hds, ne_eq, not_false_iff, ite_true, ite_false, if_neg]
      cases hp : parse_dt ds with
      | error m => simp [isErr, parseFails, hp, hds, except_bind_err, except_map_err]
      | ok st => simp [isErr, parseFails, hp, hds, except_bind_ok, except_map_ok, except_pure]

lemma loadEventsAux_err_iff : ∀ (items : List RawRecord) (k : Nat),
    isErr (loadEventsAux k items) = true ↔ ∃ item ∈ items, recBad item = true := by
  intro items
  induction items with
  | nil => intro k; simp [loadEventsAux, isErr, pure, Except.pure]
  | cons item rest ih =>
    intro k
    rw [loadEventsAux]
    cases ho : loadOne (genId k) item with
    | error m =>
      have hbad : recBad item = true := by
        rw [← loadOne_err_iff (genId k)]
        rw [ho]
        rfl
      simp only [except_bind_err]
      constructor
      · intro _; exact ⟨item, List.mem_cons_self _ _, hbad⟩
      · intro _; rfl
    | ok e =>
      have hgood : recBad item = false := by
        rw [← loadOne_err_iff (genId k)]
        rw [ho]
        rfl
      cases hrest : loadEventsAux (k + 1) rest with
      | error m =>
        simp only [except_bind_ok, except_bind_err]
        constructor
        · intro _
          obtain ⟨it, hm, hb⟩ := (ih (k + 1)).1 (by rw [hrest]; rfl)
          exact ⟨it, List.mem_cons_of_mem _ hm, hb⟩
        · intro _; rfl
      | ok evs =>
        simp only [except_bind_ok, except_pure, isErr]
        constructor
        · intro h; cases h
        · rintro ⟨it, hm, hb⟩
          rcases List.mem_cons.1 hm with rfl | hm'
          · rw [hgood] at hb; cases hb
          · have := (ih (k + 1)).2 ⟨it, hm', hb⟩
            rw [hrest] at this
            cases this

lemma loadEventsAux_length : ∀ (items : List RawRecord) (k : Nat) (evs : List Event),
    loadEventsAux k items = .ok evs → evs.length = items.length := by
  intro items
  induction items with
  | nil =>
    intro k evs h
    rw [loadEventsAux] at h
    injection h with h
    rw [← h]
    rfl
  | cons item rest ih =>
    intro k evs h
    rw [loadEventsAux] at h
    cases ho : loadOne (genId k) item with
    | error m => rw [ho] at h; cases h
    | ok e =>
      rw [ho] at h
      cases hrest : loadEventsAux (k + 1) rest with
      | error m => rw [hrest] at h; cases h
      | ok evs' =>
        rw [hrest] at h
        injection h with h
        rw [← h]
        have := ih (k + 1) evs' hrest
        simp [this]

/-- The record's three date-text fields — `date`, `start` and `end` (absent
fields read as `""`) — one of which every load failure's message originates
from. -/
def recTexts (item : RawRecord) : List String :=
  [item.date.getD "", item.start.getD "", item.stop.getD ""]

/-- A failing `loadStartEnd` raises the parse error of the record's `start`
text or of its non-empty `end` text. -/
lemma loadStartEnd_err_source (item : RawRecord) (m : String)
    (h : loadStartEnd item = .error m) :
    parse_dt (item.start.getD "") = .error m ∨
      ∃ es, item.stop = some es ∧ parse_dt es = .error m := by
  unfold loadStartEnd at h
  cases hst : parse_dt (item.start.getD "") with
  | error m' =>
    rw [hst, except_bind_err] at h
    injection h with h
    subst h
    exact Or.inl rfl
  | ok st =>
    rw [hst] at h
    simp only [except_bind_ok] at h
    cases hsp : item.stop with
    | none =>
      simp only [hsp] at h
      cases h
    | some es =>
      simp only [hsp] at h
      by_cases hes : es = ""
      · rw [if_neg (not_not_intro hes)] at h
        cases h
      · rw [if_pos hes] at h
        cases hen : parse_dt es with
        | error m' =>
          simp only [hen, except_bind_err, except_map_err, Except.error.injEq] at h
          subst h
          exact Or.inr ⟨es, rfl, hen⟩
        | ok en =>
          simp only [hen, except_bind_ok, except_map_ok, except_pure] at h
          cases h

/-- A failing `loadOne` raises the parse error of one of the record's date
texts. -/
lemma loadOne_err_source (fresh : String) (item : RawRecord) (m : String)
    (h : loadOne fresh item = .error m) :
    ∃ s ∈ recTexts item, parse_dt s = .error m := by
  have fromSE : loadStartEnd item = .error m →
      ∃ s ∈ recTexts item, parse_dt s = .error m := by
    intro hse
    rcases loadStartEnd_err_source item m hse with hst | ⟨es, hsp, hpe⟩
    · exact ⟨item.start.getD "", by simp [recTexts], hst⟩
    · exact ⟨es, by simp [recTexts, hsp], hpe⟩
  unfold loadOne at h
  cases hd : item.date with
  | none =>
    simp only [hd] at h
    cases hse : loadStartEnd item with
    | error m' =>
      rw [hse, except_bind_err] at h
      injection h with h
      subst h
      exact fromSE hse
    | ok se =>
      rw [hse] at h
      simp only [except_bind_ok, except_pure] at h
      cases h
  | some ds =>
    simp only [hd] at h
    by_cases hds : ds = ""
    · rw [if_neg (not_not_intro hds)] at h
      cases hse : loadStartEnd item with
      | error m' =>
        rw [hse, except_bind_err] at h
        injection h with h
        subst h
        exact fromSE hse
      | ok se =>
        rw [hse] at h
        simp only [except_bind_ok, except_pure] at h
        cases h
    · rw [if_pos hds] at h
      cases hp : parse_dt ds with
      | error m' =>
        simp only [hp, except_bind_err, except_map_err, except_bind_ok,
          Except.error.injEq] at h
        subst h
        exact ⟨ds, by simp [recTexts, hd], hp⟩
      | ok st =>
        simp only [hp, except_bind_ok, except_map_ok, except_pure] at h
        cases h

/-- A failing `loadEventsAux` raises the parse error of a date text of one
of its records. -/
lemma loadEventsAux_err_source : ∀ (items : List RawRecord) (k : Nat) (m : String),
    loadEventsAux k items = .error m →
    ∃ item ∈ items, ∃ s ∈ recTexts item, parse_dt s = .error m := by
  intro items
  induction items with
  | nil =>
    intro k m h
    rw [loadEventsAux] at h
    cases h
  | cons item rest ih =>
    intro k m h
    rw [loadEventsAux] at h
    cases ho : loadOne (genId k) item with
    | error m' =>
      rw [ho, except_bind_err] at h
      injection h with h
      subst h
      obtain ⟨s, hs, hp⟩ := loadOne_err_source (genId k) item m' ho
      exact ⟨item, List.mem_cons_self _ _, s, hs, hp⟩
    | ok e =>
      rw [ho] at h
      simp only [except_bind_ok] at h
      cases hrest : loadEventsAux (k + 1) rest with
      | error m' =>
        rw [hrest, except_bind_err] at h
        injection h with h
        subst h
        obtain ⟨it, hmem, s, hs, hp⟩ := ih (k + 1) m' hrest
        exact ⟨it, List.mem_cons_of_mem _ hmem, s, hs, hp⟩
      | ok evs =>
        rw [hrest] at h
        simp only [except_bind_ok, except_pure] at h
        cases h

/-! ## Remaining helper lemmas for the highlight claims -/

lemma rebuild_nil_selected (events : List Event) :
    rebuild_highlight_day_map events [] = [] := by
  unfold rebuild_highlight_day_map
  have h : events.filter (fun e => decide (e.id ∈ ([] : List String))) = [] := by
    simp
  rw [h]
  rfl

lemma rebuild_congr (events : List Event) {s₁ s₂ : List String}
    (h : ∀ i, i ∈ s₁ ↔ i ∈ s₂) :
    rebuild_highlight_day_map events s₁ = rebuild_highlight_day_map events s₂ := by
  unfold rebuild_highlight_day_map
  have hf : events.filter (fun e => decide (e.id ∈ s₁))
      = events.filter (fun e => decide (e.id ∈ s₂)) := by
    apply List.filter_congr
    intro e _
    exact decide_eq_decide.2 (h e.id)
  rw [hf]

/-- Lookup of day-hit buckets, Python `highlight_day_to_eids.get(d, [])`. -/
def hitsGet (m : List (DDate × List String)) (d : DDate) : List String :=
  match m with
  | [] => []
  | (k, v) :: rest => if k = d then v else hitsGet rest d

lemma assign_no_new {i : String} : ∀ (ids : List String)
    (co : List (String × String)) (used : List String) (n : Nat)
    (res : List (String × String) × List String × Nat),
    assignColors ids co used n = some res → dlookup co i = none → ¬ i ∈ ids →
    dlookup res.1 i = none := by
  intro ids
  induction ids with
  | nil =>
    intro co used n res hr h _
    rw [assignColors] at hr
    injection hr with hr
    rw [← hr]
    exact h
  | cons j rest ih =>
    intro co used n res hr h hmem
    rw [assignColors] at hr
    cases hj : dlookup co j with
    | some c' =>
      rw [hj] at hr
      exact ih _ _ _ _ hr h (fun h' => hmem (List.mem_cons_of_mem _ h'))
    | none =>
      rw [hj] at hr
      cases hf : find_color SEARCH_BOUND n used with
      | none => rw [hf] at hr; cases hr
      | some cn =>
        obtain ⟨c₂, n₂⟩ := cn
        rw [hf] at hr
        have hji : ¬ j = i := fun hji => hmem (hji ▸ List.mem_cons_self _ _)
        refine ih _ _ _ _ hr ?_ (fun h' => hmem (List.mem_cons_of_mem _ h'))
        rw [dlookup_append_of_none _ h, dlookup_cons_ne hji]
        rfl

lemma carry_dom {old : List (String × String)} {ids : List String} {i : String}
    (h : ¬ i ∈ ids) : dlookup (carryColors old ids).1 i = none := by
  rw [carry_lookup, if_neg h]

/-- Colour-map domain after the assignment loop. -/
lemma assign_dom {i : String} : ∀ (ids : List String)
    (co : List (String × String)) (used : List String) (n : Nat)
    (res : List (String × String) × List String × Nat),
    assignColors ids co used n = some res →
    ((∃ c, dlookup res.1 i = some c) ↔ i ∈ ids ∨ ∃ c, dlookup co i = some c) := by
  intro ids co used n res hr
  constructor
  · intro ⟨c, hc⟩
    by_cases hmem : i ∈ ids
    · exact Or.inl hmem
    · cases hco : dlookup co i with
      | some c' => exact Or.inr ⟨c', rfl⟩
      | none =>
        rw [assign_no_new ids co used n res hr hco hmem] at hc
        cases hc
  · rintro (hmem | ⟨c, hc⟩)
    · exact assign_total ids co used n res hr hmem
    · exact ⟨c, assign_preserve ids co used n res hc hr⟩

lemma carry_values_mem {old : List (String × String)} {ids : List String} {c : String} :
    c ∈ (carryColors old ids).1.map Prod.snd ↔ ∃ j ∈ ids, dlookup old j = some c := by
  unfold carryColors
  rw [carryAux_fst, List.nil_append]
  induction ids with
  | nil => simp
  | cons j rest ih =>
    rw [List.filterMap_cons]
    cases hj : dlookup old j with
    | some c' =>
      simp only [Option.map_some', List.map_cons, List.mem_cons]
      constructor
      · rintro (rfl | h')
        · exact ⟨j, Or.inl rfl, hj⟩
        · obtain ⟨j', hm, hl⟩ := ih.1 h'
          exact ⟨j', Or.inr hm, hl⟩
      · rintro ⟨j', hm, hl⟩
        rcases hm with rfl | hm'
        · rw [hj] at hl
          injection hl with hl
          exact Or.inl hl.symm
        · exact Or.inr (ih.2 ⟨j', hm', hl⟩)
    | none =>
      simp only [Option.map_none']
      rw [ih]
      constructor
      · rintro ⟨j', hm, hl⟩
        exact ⟨j', List.mem_cons_of_mem _ hm, hl⟩
      · rintro ⟨j', hm, hl⟩
        rcases List.mem_cons.1 hm with rfl | hm'
        · rw [hj] at hl; cases hl
        · exact ⟨j', hm', hl⟩

lemma carry_values_nodup {old : List (String × String)} {ids : List String}
    (hnd : ids.Nodup) (hvals : (old.map Prod.snd).Nodup) :
    ((carryColors old ids).1.map Prod.snd).Nodup := by
  induction ids with
  | nil => simp [carryColors, carryAux]
  | cons j rest ih =>
    have hjr : ¬ j ∈ rest := (List.nodup_cons.1 hnd).1
    have hrest := ih (List.nodup_cons.1 hnd).2
    unfold carryColors
    rw [carryAux_fst, List.nil_append, List.filterMap_cons]
    unfold carryColors at hrest
    rw [carryAux_fst, List.nil_append] at hrest
    cases hj : dlookup old j with
    | some c' =>
      simp only [Option.map_some', List.map_cons, List.nodup_cons]
      refine ⟨?_, hrest⟩
      intro hmem
      have hmem' : c' ∈ (carryColors old rest).1.map Prod.snd := by
        unfold carryColors
        rw [carryAux_fst, List.nil_append]
        exact hmem
      obtain ⟨j', hm, hl⟩ := carry_values_mem.1 hmem'
      have := dlookup_inj_of_values_nodup hvals hj hl
      subst this
      exact hjr hm
    | none =>
      simp only [Option.map_none']
      exact hrest

lemma addUsed_length (used : List String) (c : String) :
    (addUsed used c).length ≤ used.length + 1 := by
  unfold addUsed
  split_ifs with h
  · omega
  · rw [List.length_append]
    simp

lemma carry_used_length (old : List (String × String)) :
    ∀ (ids : List String) (co : List (String × String)) (used : List String),
    (carryAux old ids co used).2.length ≤
      used.length + (ids.filter (fun i => (dlookup old i).isSome)).length := by
  intro ids
  induction ids with
  | nil => intro co used; simp [carryAux]
  | cons j rest ih =>
    intro co used
    show (match dlookup old j with
        | some c => carryAux old rest (co ++ [(j, c)]) (addUsed used c)
        | none => carryAux old rest co used).2.length ≤ _
    cases hj : dlookup old j with
    | some c =>
      show (carryAux old rest (co ++ [(j, c)]) (addUsed used c)).2.length ≤ _
      have h1 := ih (co ++ [(j, c)]) (addUsed used c)
      have h2 := addUsed_length used c
      have hf : (j :: rest).filter (fun i => (dlookup old i).isSome)
          = j :: rest.filter (fun i => (dlookup old i).isSome) := by
        simp [List.filter_cons, hj]
      rw [hf, List.length_cons]
      omega
    | none =>
      show (carryAux old rest co used).2.length ≤ _
      have h1 := ih co used
      have hf : (j :: rest).filter (fun i => (dlookup old i).isSome)
          = rest.filter (fun i => (dlookup old i).isSome) := by
        simp [List.filter_cons, hj]
      rw [hf]
      omega

lemma needy_carry (old : List (String × String)) (ids : List String) :
    needyCount (carryColors old ids).1 ids =
      (ids.filter (fun i => (dlookup old i).isNone)).length := by
  unfold needyCount
  congr 1
  apply List.filter_congr
  intro i hi
  rw [carry_lookup, if_pos hi]

lemma filter_some_none_length (old : List (String × String)) :
    ∀ (ids : List String),
    (ids.filter (fun i => (dlookup old i).isSome)).length +
      (ids.filter (fun i => (dlookup old i).isNone)).length = ids.length := by
  intro ids
  induction ids with
  | nil => rfl
  | cons j rest ih =>
    cases hj : dlookup old j with
    | some c =>
      have hf1 : (j :: rest).filter (fun i => (dlookup old i).isSome)
          = j :: rest.filter (fun i => (dlookup old i).isSome) := by
        simp [List.filter_cons, hj]
      have hf2 : (j :: rest).filter (fun i => (dlookup old i).isNone)
          = rest.filter (fun i => (dlookup old i).isNone) := by
        simp [List.filter_cons, hj]
      rw [hf1, hf2, List.length_cons, List.length_cons]
      omega
    | none =>
      have hf1 : (j :: rest).filter (fun i => (dlookup old i).isSome)
          = rest.filter (fun i => (dlookup old i).isSome) := by
        simp [List.filter_cons, hj]
      have hf2 : (j :: rest).filter (fun i => (dlookup old i).isNone)
          = j :: rest.filter (fun i => (dlookup old i).isNone) := by
        simp [List.filter_cons, hj]
      rw [hf1, hf2, List.length_cons, List.length_cons]
      omega

lemma countOcc_flatten_replicate (events : List Event) (e : Event) (d : DDate) :
    countOcc e ((events.map (fun e' => List.replicate (hitCount e' d) e')).flatten) =
      hitCount e d * countOcc e events := by
  induction events with
  | nil => simp [countOcc]
  | cons e' rest ih =>
    simp only [List.map_cons, List.flatten_cons, countOcc_append, ih,
      countOcc_replicate, countOcc]
    by_cases h : e' = e
    · subst h
      simp
      ring
    · simp [h]

lemma countOcc_insertionSort (e : Event) (l : List Event) :
    countOcc e (List.insertionSort canonLe l) = countOcc e l :=
  countOcc_perm e (List.perm_insertionSort canonLe l)

lemma mem_presentIds {events : List Event} {order : List String} {i : String} :
    i ∈ presentIds events order ↔ i ∈ order ∧ i ∈ events.map Event.id := by
  unfold presentIds
  rw [List.mem_filter]
  simp

lemma apply_elim {old : List (String × String)} {events : List Event}
    {order : List String} {st : HighlightState}
    (h : apply_selected_events old events order = some st) :
    st.selected = presentIds events order ∧
    st.dayHits = rebuild_highlight_day_map events (presentIds events order) ∧
    ∃ u n, assignColors (presentIds events order)
        (carryColors old (presentIds events order)).1
        (carryColors old (presentIds events order)).2 0 = some (st.colorOf, u, n) := by
  simp only [apply_selected_events] at h
  cases ha : assignColors (presentIds events order)
      (carryColors old (presentIds events order)).1
      (carryColors old (presentIds events order)).2 0 with
  | none => rw [ha] at h; cases h
  | some res =>
    obtain ⟨co2, u, n⟩ := res
    rw [ha] at h
    injection h with h
    subst h
    exact ⟨rfl, rfl, u, n, rfl⟩

lemma apply_intro {old : List (String × String)} {events : List Event}
    {order : List String} {res : List (String × String) × List String × Nat}
    (ha : assignColors (presentIds events order)
        (carryColors old (presentIds events order)).1
        (carryColors old (presentIds events order)).2 0 = some res) :
    apply_selected_events old events order =
      some ⟨presentIds events order, res.1,
        rebuild_highlight_day_map events (presentIds events order)⟩ := by
  obtain ⟨co2, u, n⟩ := res
  simp only [apply_selected_events, ha]

/-! ## The claims -/

/-- C2, counterexample to the claim as stated: `"2024-1-5"` is accepted by
the first (date-only) format — CPython's `%m`/`%d` patterns allow unpadded
digits — yet `dt_to_str` zero-pads, so `format(parse(d)) ≠ d`. -/
theorem c2_roundtrip_counterexample :
    matchDateOnly (stripChars "2024-1-5".data) = some ⟨2024, 1, 5, 0, 0, 0⟩ ∧
    parse_dt "2024-1-5" = .ok ⟨2024, 1, 5, 0, 0, 0⟩ ∧
    dt_to_str ⟨2024, 1, 5, 0, 0, 0⟩ = "2024-01-05" ∧
    ("2024-01-05" : String) ≠ "2024-1-5" := by
  refine ⟨by rfl, by rfl, by rfl, by decide⟩

/-- C2 as amended: round trip holds for every date-only string in canonical
zero-padded form — exactly the strings `fmtDateChars y m d` for a valid date
with a four-digit year (the year's decimal digits are emitted unpadded, so a
year below 1000 would not round-trip either): parsing such a string with the
first format yields the midnight instant, and formatting that instant
reproduces the string. -/
theorem c2_date_roundtrip (y m d : Nat) (h₁ : 1000 ≤ y) (h₂ : y ≤ 9999)
    (hv : ValidDate ⟨y, m, d⟩) :
    parse_dt (String.mk (fmtDateChars y m d)) = .ok ⟨y, m, d, 0, 0, 0⟩ ∧
    dt_to_str ⟨y, m, d, 0, 0, 0⟩ = String.mk (fmtDateChars y m d) := by
  refine ⟨parse_dt_fmtDate y m d h₁ h₂ hv, ?_⟩
  unfold dt_to_str
  rw [if_pos ⟨rfl, rfl, rfl⟩]

/-- C2 witness at 2024-01-05. -/
theorem c2_date_roundtrip_witness :
    parse_dt (String.mk (fmtDateChars 2024 1 5)) = .ok ⟨2024, 1, 5, 0, 0, 0⟩ ∧
    dt_to_str ⟨2024, 1, 5, 0, 0, 0⟩ = String.mk (fmtDateChars 2024 1 5) :=
  c2_date_roundtrip 2024 1 5 (by decide) (by decide) (by decide)

/-- C8: `dt_to_str` emits the date-only form exactly when hour, minute and
second are all zero, and otherwise the date-plus-`HH:MM` form, whose shape
does not mention the seconds field at all — seconds are never emitted. -/
theorem c8_formatter_precision (t : DateTime) :
    (dt_to_str t = String.mk (fmtDateChars t.year t.month t.day) ↔
      t.hour = 0 ∧ t.minute = 0 ∧ t.second = 0) ∧
    (¬ (t.hour = 0 ∧ t.minute = 0 ∧ t.second = 0) →
      dt_to_str t = String.mk (fmtDateHMChars t.year t.month t.day t.hour t.minute)) := by
  by_cases hmid : t.hour = 0 ∧ t.minute = 0 ∧ t.second = 0
  · refine ⟨⟨fun _ => hmid, fun _ => ?_⟩, fun h => absurd hmid h⟩
    unfold dt_to_str
    rw [if_pos hmid]
  · refine ⟨⟨fun heq => ?_, fun h => absurd h hmid⟩, fun _ => ?_⟩
    · exfalso
      unfold dt_to_str at heq
      rw [if_neg hmid] at heq
      have hdata := congrArg String.data heq
      exact append_cons_ne _ _ _ hdata
    · unfold dt_to_str
      rw [if_neg hmid]

/-- C8 witness: a midnight instant and an instant with nonzero seconds. -/
theorem c8_formatter_witness :
    dt_to_str ⟨2024, 1, 5, 0, 0, 0⟩ = String.mk (fmtDateChars 2024 1 5) ∧
    dt_to_str ⟨2024, 1, 5, 7, 30, 22⟩ = String.mk (fmtDateHMChars 2024 1 5 7 30) := by
  constructor
  · exact (c8_formatter_precision ⟨2024, 1, 5, 0, 0, 0⟩).1.2 ⟨rfl, rfl, rfl⟩
  · exact (c8_formatter_precision ⟨2024, 1, 5, 7, 30, 22⟩).2 (by decide)

/-- C9, counterexample to the claim as stated: the error for `"xyz"` exists
and carries the offending text, but its fixed pattern list mentions only
`YYYY-MM-DD` and `YYYY-MM-DD HH:MM` — the accepted seconds format appears
nowhere in the message, in neither human nor `strptime` notation. -/
theorem c9_error_counterexample :
    parse_dt "xyz" = .error (parse_err_msg "xyz".data) ∧
    hasSub "HH:MM:SS".data (parse_err_msg "xyz".data).data = false ∧
    hasSub "%H:%M:%S".data (parse_err_msg "xyz".data).data = false := by
  refine ⟨by rfl, by decide, by decide⟩

/-- C9 as amended: every parse failure raises with a message consisting of a
fixed prefix, the stripped offending text, and a fixed suffix; the message
contains the offending text and the date-only and date-plus-minutes
patterns, while the fixed parts nowhere list the seconds pattern. -/
theorem c9_error_message (s msg : String) (h : parse_dt s = .error msg) :
    msg.data = errPre ++ stripChars s.data ++ errPost ∧
    hasSub (stripChars s.data) msg.data = true ∧
    hasSub "YYYY-MM-DD".data msg.data = true ∧
    hasSub "YYYY-MM-DD HH:MM".data msg.data = true ∧
    hasSub "HH:MM:SS".data errPost = false ∧
    hasSub "HH:MM:SS".data errPre = false := by
  have hm := parse_dt_error_msg s msg h
  subst hm
  refine ⟨rfl, ?_, ?_, ?_, by decide, by decide⟩
  · show hasSub (stripChars s.data) (errPre ++ stripChars s.data ++ errPost) = true
    rw [List.append_assoc]
    exact hasSub_append_left _ _ _ (hasSub_of_leadsWith _ _ (leadsWith_append_self _ _))
  · show hasSub _ (errPre ++ stripChars s.data ++ errPost) = true
    exact hasSub_append_left _ _ _ (by decide)
  · show hasSub _ (errPre ++ stripChars s.data ++ errPost) = true
    exact hasSub_append_left _ _ _ (by decide)

/-- C9 witness at input "xyz". -/
theorem c9_error_message_witness :
    (parse_err_msg (stripChars "xyz".data)).data
      = errPre ++ stripChars "xyz".data ++ errPost ∧
    hasSub (stripChars "xyz".data) (parse_err_msg (stripChars "xyz".data)).data = true ∧
    hasSub "YYYY-MM-DD HH:MM".data (parse_err_msg (stripChars "xyz".data)).data = true := by
  obtain ⟨h1, h2, h3, h4, h5, h6⟩ := c9_error_message "xyz" _ (by rfl)
  exact ⟨h1, h2, h4⟩

/-- C3 as amended: each day's bucket holds an event once per occurrence of
that event in the input list — hence exactly once for duplicate-free input —
when the day lies in the event's inclusive date span, and not at all
otherwise. -/
theorem c3_day_coverage (events : List Event) (e : Event) (d : DDate)
    (hs : ValidDate (dtDate e.start)) (he : ValidDate (dtDate e.stop))
    (hd : ValidDate d) :
    countOcc e (dayBucket events d) =
      if overlaps_day e d then countOcc e events else 0 := by
  unfold dayBucket build_day_map
  rw [dictGet_sorted_map, countOcc_insertionSort, dictGet_build_pre events d [],
    show dictGet [] d = [] from rfl, List.nil_append, countOcc_flatten_replicate,
    hitCount_eq_overlap e d hs he hd]
  split_ifs with h
  · rw [one_mul]
  · rw [zero_mul]

def dupE : Event := ⟨"e1", "E", ⟨2024, 1, 10, 0, 0, 0⟩, ⟨2024, 1, 10, 0, 0, 0⟩, ""⟩

def dupD : DDate := ⟨2024, 1, 10⟩

set_option maxRecDepth 100000 in
/-- C3, counterexample to the claim as stated: `build_day_map` never
deduplicates, so for an input list containing the same event twice (two
identical persisted records produce exactly this) the bucket of a covered
day contains that event twice, not "exactly once". -/
theorem c3_day_coverage_counterexample :
    dupE ∈ [dupE, dupE] ∧ overlaps_day dupE dupD = true ∧
    countOcc dupE (dayBucket [dupE, dupE] dupD) = 2 := by
  refine ⟨List.mem_cons_self _ _, by decide, by decide⟩

/-- C3 witness for a duplicate-free list. -/
theorem c3_day_coverage_witness :
    countOcc dupE (dayBucket [dupE] dupD) =
      if overlaps_day dupE dupD then countOcc dupE [dupE] else 0 :=
  c3_day_coverage [dupE] dupE dupD (by decide) (by decide) (by decide)

/-- C4: every day's bucket equals the input events covering that day,
stably sorted by the canonical `(start, end, name)` key (for a day with no
covering event both sides are empty — the sparse map returns `[]`). -/
theorem c4_bucket_order (events : List Event) (d : DDate)
    (hval : ∀ e ∈ events, ValidDate (dtDate e.start) ∧ ValidDate (dtDate e.stop))
    (hd : ValidDate d) :
    dayBucket events d =
      List.insertionSort canonLe (events.filter (fun e => overlaps_day e d)) :=
  dayBucket_eq events d hval hd

def scenE1 : Event := ⟨"E1", "E1", ⟨2024, 1, 10, 0, 0, 0⟩, ⟨2024, 1, 10, 0, 0, 0⟩, ""⟩

def scenE2 : Event := ⟨"E2", "E2", ⟨2024, 1, 9, 0, 0, 0⟩, ⟨2024, 1, 12, 0, 0, 0⟩, ""⟩

set_option maxRecDepth 100000 in
set_option maxHeartbeats 1600000 in
/-- C4 witness, the claim's concrete scenario: E1 covers only 2024-01-10,
E2 covers 2024-01-09..12; day 2024-01-10 maps to `[E2, E1]` (E2 starts
earlier) and day 2024-01-11 maps to `[E2]`. -/
theorem c4_bucket_order_witness :
    dayBucket [scenE1, scenE2] ⟨2024, 1, 10⟩ = [scenE2, scenE1] ∧
    dayBucket [scenE1, scenE2] ⟨2024, 1, 11⟩ = [scenE2] := by
  constructor
  · exact (c4_bucket_order [scenE1, scenE2] ⟨2024, 1, 10⟩ (by decide) (by decide)).trans
      (by decide)
  · exact (c4_bucket_order [scenE1, scenE2] ⟨2024, 1, 11⟩ (by decide) (by decide)).trans
      (by decide)

/-- C5 as amended: the load fails exactly when some record's required date
text (`date`, `start`, or a non-empty `end`) fails to parse — the failure
aborts the whole load, no record is skipped (on success the output has one
event per record), and the raised error is the parse error of the offending
record's date text, whose message contains that (stripped) text — while a
missing or blank `name` never fails: it is replaced by the default
placeholder. -/
theorem c5_load_failure (items : List RawRecord) :
    (isErr (load_events items) = true ↔ ∃ item ∈ items, recBad item = true) ∧
    (∀ evs, load_events items = .ok evs → evs.length = items.length) ∧
    (∀ m, load_events items = .error m →
      ∃ item ∈ items, ∃ s ∈ recTexts item,
        parse_dt s = .error m ∧ hasSub (stripChars s.data) m.data = true) := by
  refine ⟨?_, ?_, ?_⟩
  · unfold load_events
    cases ha : loadEventsAux 0 items with
    | ok evs =>
      simp only [isErr]
      constructor
      · intro h; cases h
      · intro hex
        have h2 := (loadEventsAux_err_iff items 0).2 hex
        rw [ha] at h2
        simp [isErr] at h2
    | error m =>
      simp only [isErr]
      constructor
      · intro _
        exact (loadEventsAux_err_iff items 0).1 (by rw [ha]; rfl)
      · intro _; trivial
  · intro evs h
    unfold load_events at h
    cases ha : loadEventsAux 0 items with
    | error m => rw [ha] at h; cases h
    | ok evs' =>
      rw [ha] at h
      injection h with h
      rw [← h, (List.perm_insertionSort canonLe evs').length_eq]
      exact loadEventsAux_length items 0 evs' ha
  · intro m h
    have haux : loadEventsAux 0 items = .error m := by
      unfold load_events at h
      cases ha : loadEventsAux 0 items with
      | ok evs => rw [ha] at h; cases h
      | error e =>
        rw [ha] at h
        injection h with h
        rw [h]
    obtain ⟨it, hit, s, hs, hp⟩ := loadEventsAux_err_source items 0 m haux
    refine ⟨it, hit, s, hs, hp, ?_⟩
    have hmsg := parse_dt_error_msg s m hp
    subst hmsg
    show hasSub (stripChars s.data) (errPre ++ stripChars s.data ++ errPost) = true
    rw [List.append_assoc]
    exact hasSub_append_left _ _ _ (hasSub_of_leadsWith _ _ (leadsWith_append_self _ _))

def recGood : RawRecord := ⟨none, none, none, some "2024-03-01", none, none⟩

def recBadStart : RawRecord := ⟨none, some "X", none, some "not-a-date", none, none⟩

/-- C5, counterexample to the claim as stated: a record whose `name` cannot
be derived (the field is absent) does NOT make the load fail — the loader
silently substitutes the default placeholder and succeeds. -/
theorem c5_load_failure_counterexample :
    recGood.name = none ∧
    load_events [recGood] =
      .ok [⟨genId 0, default_name, ⟨2024, 3, 1, 0, 0, 0⟩, ⟨2024, 3, 1, 0, 0, 0⟩, ""⟩] := by
  refine ⟨rfl, by rfl⟩

/-- C5 witness: one unparseable `start` makes the whole two-record load
fail, and the raised message carries the offending text. -/
theorem c5_load_failure_witness :
    isErr (load_events [recGood, recBadStart]) = true ∧
    ∃ item ∈ [recGood, recBadStart], ∃ s ∈ recTexts item,
      parse_dt s = .error (parse_err_msg "not-a-date".data) ∧
      hasSub (stripChars s.data) (parse_err_msg "not-a-date".data).data = true :=
  ⟨(c5_load_failure [recGood, recBadStart]).1.2 ⟨recBadStart, by decide, by decide⟩,
   (c5_load_failure [recGood, recBadStart]).2.2 (parse_err_msg "not-a-date".data) (by rfl)⟩

/-- C7: stale candidate ids are silently dropped — the selected list is the
candidate order filtered to ids present in the event list, so every selected
id belongs to an event; if no candidate id is present (e.g. the one selected
event was removed from the store), the result has `selected = {}` and a
day-hit map that is empty for every day. -/
theorem c7_stale_drop (old : List (String × String)) (events : List Event)
    (order : List String) (st : HighlightState)
    (h : apply_selected_events old events order = some st) :
    st.selected = order.filter (fun i => decide (i ∈ events.map Event.id)) ∧
    (∀ i ∈ st.selected, i ∈ events.map Event.id) ∧
    ((∀ i ∈ order, ¬ i ∈ events.map Event.id) →
      st.selected = [] ∧ st.dayHits = [] ∧ ∀ d, hitsGet st.dayHits d = []) := by
  obtain ⟨hsel, hhits, _⟩ := apply_elim h
  refine ⟨hsel, ?_, ?_⟩
  · intro i hi
    rw [hsel] at hi
    exact (mem_presentIds.1 hi).2
  · intro habs
    have hempty : presentIds events order = [] := by
      unfold presentIds
      rw [List.filter_eq_nil]
      intro a ha
      simp [habs a ha]
    refine ⟨hsel.trans hempty, ?_, ?_⟩
    · rw [hhits, hempty, rebuild_nil_selected]
    · intro d
      rw [hhits, hempty, rebuild_nil_selected]
      rfl

/-- C7 witness: the removed-event scenario, with the sole candidate id gone
from the store. -/
theorem c7_stale_drop_witness :
    ∃ st : HighlightState, apply_selected_events [] [] ["e1"] = some st ∧
      st.selected = [] ∧ st.dayHits = [] ∧ ∀ d, hitsGet st.dayHits d = [] := by
  have h : apply_selected_events [] ([] : List Event) ["e1"] = some ⟨[], [], []⟩ := by rfl
  obtain ⟨h1, h2, h3⟩ := c7_stale_drop [] [] ["e1"] _ h
  obtain ⟨h4, h5, h6⟩ := h3 (by intro i hi; simp)
  exact ⟨_, h, h4, h5, h6⟩

/-- C1: across consecutive applies over the same event list where every
candidate id is present, each previously selected id keeps exactly the
colour the first call gave it, and the newly added id receives a colour
different from every colour the first call assigned. -/
theorem c1_color_stability
    (old0 : List (String × String)) (events : List Event)
    (l1 l2 : List String) (idC : String) (st1 st2 : HighlightState)
    (hpres : ∀ i ∈ l2, i ∈ events.map Event.id)
    (hC1 : ¬ idC ∈ l1)
    (hmem : ∀ i, i ∈ l2 ↔ i ∈ l1 ∨ i = idC)
    (ha1 : apply_selected_events old0 events l1 = some st1)
    (ha2 : apply_selected_events st1.colorOf events l2 = some st2) :
    (∀ i ∈ l1, dlookup st2.colorOf i = dlookup st1.colorOf i) ∧
    (∃ c, dlookup st2.colorOf idC = some c ∧
      ∀ i ∈ l1, ∀ c', dlookup st1.colorOf i = some c' → c' ≠ c) := by
  obtain ⟨hsel1, hh1, u1, n1, hass1⟩ := apply_elim ha1
  obtain ⟨hsel2, hh2, u2, n2, hass2⟩ := apply_elim ha2
  have hl1sub : ∀ i ∈ l1, i ∈ l2 := fun i hi => (hmem i).2 (Or.inl hi)
  have hids2 : presentIds events l2 = l2 := by
    unfold presentIds
    rw [List.filter_eq_self]
    intro a ha
    simp [hpres a ha]
  have hdom1 : ∀ i ∈ l1, ∃ c, dlookup st1.colorOf i = some c := by
    intro i hi
    have hip : i ∈ events.map Event.id := hpres i (hl1sub i hi)
    have hmem1 : i ∈ presentIds events l1 := mem_presentIds.2 ⟨hi, hip⟩
    exact assign_total _ _ _ _ _ hass1 hmem1
  have hCnone : dlookup st1.colorOf idC = none := by
    have hC1' : ¬ idC ∈ presentIds events l1 :=
      fun hmemF => hC1 (mem_presentIds.1 hmemF).1
    exact assign_no_new _ _ _ _ _ hass1 (carry_dom hC1') hC1'
  constructor
  · intro i hi
    obtain ⟨c, hc⟩ := hdom1 i hi
    have hi2 : i ∈ presentIds events l2 := by
      rw [hids2]
      exact hl1sub i hi
    have hcarry : dlookup (carryColors st1.colorOf (presentIds events l2)).1 i = some c := by
      rw [carry_lookup, if_pos hi2, hc]
    rw [hc]
    exact assign_preserve _ _ _ _ _ hcarry hass2
  · have hC2 : idC ∈ presentIds events l2 := by
      rw [hids2]
      exact (hmem idC).2 (Or.inr rfl)
    have hcoC : dlookup (carryColors st1.colorOf (presentIds events l2)).1 idC = none := by
      rw [carry_lookup, if_pos hC2, hCnone]
    obtain ⟨c, hc1, hc2, _⟩ := assign_fresh _ _ _ _ _ hass2 hC2 hcoC
    refine ⟨c, hc1, ?_⟩
    intro i hi c' hc' hcc
    subst hcc
    apply hc2
    apply (carryAux_snd_mem st1.colorOf (presentIds events l2) [] [] c').2
    refine Or.inr ⟨i, ?_, hc'⟩
    rw [hids2]
    exact hl1sub i hi

def wEv (s : String) : Event :=
  ⟨s, s, ⟨2024, 1, 5, 0, 0, 0⟩, ⟨2024, 1, 5, 0, 0, 0⟩, ""⟩

def evsABC : List Event := [wEv "a", wEv "b", wEv "c"]

/-- C1 witness: `apply({a,b})` then `apply({a,b,c})` on three stored events. -/
theorem c1_color_stability_witness :
    ∃ st1 st2 : HighlightState,
      apply_selected_events [] evsABC ["a", "b"] = some st1 ∧
      apply_selected_events st1.colorOf evsABC ["a", "b", "c"] = some st2 ∧
      (∀ i ∈ ["a", "b"], dlookup st2.colorOf i = dlookup st1.colorOf i) ∧
      (∃ c, dlookup st2.colorOf "c" = some c ∧
        ∀ i ∈ ["a", "b"], ∀ c', dlookup st1.colorOf i = some c' → c' ≠ c) := by
  have h1 : apply_selected_events [] evsABC ["a", "b"] =
      some ⟨["a", "b"], [("a", "#DFF7E3"), ("b", "#FFE0E6")],
        [(⟨2024, 1, 5⟩, ["a", "b"])]⟩ := by rfl
  have h2 : apply_selected_events [("a", "#DFF7E3"), ("b", "#FFE0E6")] evsABC
      ["a", "b", "c"] =
      some ⟨["a", "b", "c"],
        [("a", "#DFF7E3"), ("b", "#FFE0E6"), ("c", "#E6E0FF")],
        [(⟨2024, 1, 5⟩, ["a", "b", "c"])]⟩ := by rfl
  obtain ⟨hA, hB⟩ := c1_color_stability [] evsABC ["a", "b"] ["a", "b", "c"] "c" _ _
    (by decide) (by decide)
    (by intro i
        simp only [List.mem_cons, List.not_mem_nil, or_false]
        tauto)
    h1 h2
  exact ⟨_, _, h1, h2, hA, hB⟩

/-- C10 as amended: the result of `apply` is a function of the candidate-id
iteration order; with only the candidate SET fixed (Python's set iteration
order is not a function of the set's contents across runs), the selected
membership, the day-hit map, every carried colour, and the colour-map domain
are still identical — but which new id gets which colour can differ, see the
counterexample. -/
theorem c10_order_determinism
    (old : List (String × String)) (events : List Event)
    (l1 l2 : List String) (st1 st2 : HighlightState)
    (hset : ∀ i, i ∈ l1 ↔ i ∈ l2)
    (h1 : apply_selected_events old events l1 = some st1)
    (h2 : apply_selected_events old events l2 = some st2) :
    st1.dayHits = st2.dayHits ∧
    (∀ i, i ∈ st1.selected ↔ i ∈ st2.selected) ∧
    (∀ i c, i ∈ st1.selected → dlookup old i = some c →
      dlookup st1.colorOf i = some c ∧ dlookup st2.colorOf i = some c) ∧
    (∀ i, (∃ c, dlookup st1.colorOf i = some c) ↔ ∃ c, dlookup st2.colorOf i = some c) := by
  obtain ⟨hsel1, hh1, u1, n1, hass1⟩ := apply_elim h1
  obtain ⟨hsel2, hh2, u2, n2, hass2⟩ := apply_elim h2
  have hmemids : ∀ i, i ∈ presentIds events l1 ↔ i ∈ presentIds events l2 := by
    intro i
    rw [mem_presentIds, mem_presentIds, hset i]
  refine ⟨?_, ?_, ?_, ?_⟩
  · rw [hh1, hh2]
    exact rebuild_congr events hmemids
  · intro i
    rw [hsel1, hsel2]
    exact hmemids i
  · intro i c hi hold
    rw [hsel1] at hi
    have hi2 : i ∈ presentIds events l2 := (hmemids i).1 hi
    constructor
    · apply assign_preserve _ _ _ _ _ _ hass1
      rw [carry_lookup, if_pos hi, hold]
    · apply assign_preserve _ _ _ _ _ _ hass2
      rw [carry_lookup, if_pos hi2, hold]
  · intro i
    have d1 : (∃ c, dlookup st1.colorOf i = some c) ↔
        (i ∈ presentIds events l1 ∨
          ∃ c, dlookup (carryColors old (presentIds events l1)).1 i = some c) :=
      assign_dom _ _ _ _ _ hass1
    have d2 : (∃ c, dlookup st2.colorOf i = some c) ↔
        (i ∈ presentIds events l2 ∨
          ∃ c, dlookup (carryColors old (presentIds events l2)).1 i = some c) :=
      assign_dom _ _ _ _ _ hass2
    rw [d1, d2]
    constructor
    · rintro (h | ⟨c, hc⟩)
      · exact Or.inl ((hmemids i).1 h)
      · rw [carry_lookup] at hc
        by_cases hi : i ∈ presentIds events l1
        · rw [if_pos hi] at hc
          refine Or.inr ⟨c, ?_⟩
          rw [carry_lookup, if_pos ((hmemids i).1 hi), hc]
        · rw [if_neg hi] at hc
          cases hc
    · rintro (h | ⟨c, hc⟩)
      · exact Or.inl ((hmemids i).2 h)
      · rw [carry_lookup] at hc
        by_cases hi : i ∈ presentIds events l2
        · rw [if_pos hi] at hc
          refine Or.inr ⟨c, ?_⟩
          rw [carry_lookup, if_pos ((hmemids i).2 hi), hc]
        · rw [if_neg hi] at hc
          cases hc

def evsAB : List Event := [wEv "a", wEv "b"]

/-- C10, counterexample to the claim as stated: two runs over the same
candidate id set, the same events and the same (empty) prior colour map, in
two iteration orders the set may legitimately produce, assign different
colours to id "a" — `apply` is not deterministic in the candidate SET. -/
theorem c10_order_determinism_counterexample :
    (∀ i : String, i ∈ ["a", "b"] ↔ i ∈ ["b", "a"]) ∧
    (apply_selected_events [] evsAB ["a", "b"]).map (fun st => dlookup st.colorOf "a") ≠
      (apply_selected_events [] evsAB ["b", "a"]).map (fun st => dlookup st.colorOf "a") := by
  constructor
  · intro i
    simp only [List.mem_cons, List.not_mem_nil, or_false]
    tauto
  · decide

/-- C10 witness: the two orders of `{a, b}`. -/
theorem c10_order_determinism_witness :
    ∃ st1 st2 : HighlightState,
      apply_selected_events [] evsAB ["a", "b"] = some st1 ∧
      apply_selected_events [] evsAB ["b", "a"] = some st2 ∧
      st1.dayHits = st2.dayHits ∧ (∀ i, i ∈ st1.selected ↔ i ∈ st2.selected) := by
  have h1 : apply_selected_events [] evsAB ["a", "b"] =
      some ⟨["a", "b"], [("a", "#DFF7E3"), ("b", "#FFE0E6")],
        [(⟨2024, 1, 5⟩, ["a", "b"])]⟩ := by rfl
  have h2 : apply_selected_events [] evsAB ["b", "a"] =
      some ⟨["b", "a"], [("b", "#DFF7E3"), ("a", "#FFE0E6")],
        [(⟨2024, 1, 5⟩, ["a", "b"])]⟩ := by rfl
  obtain ⟨hA, hB, _, _⟩ := c10_order_determinism [] evsAB ["a", "b"] ["b", "a"] _ _
    (by intro i
        simp only [List.mem_cons, List.not_mem_nil, or_false]
        tauto)
    h1 h2
  exact ⟨_, _, h1, h2, hA, hB⟩

end Todo
